import Mathlib

/-!
Verification development for the embedding generation engine of the
Automated-Financial-Concept-Note-Generator repository
(`lab1-pdf-processing/src/embeddings/embedder.py`).

The Python source is shallowly embedded below:
  * `jsonDumps` models `json.dumps(metadata, sort_keys=True)` on the flat
    string/int/bool/null metadata values the pipeline uses;
  * `md5Hex` models `hashlib.md5(key.encode()).hexdigest()` (RFC 1321),
    operating on the UTF-8 bytes of the key string, with 32-bit words
    represented as `Nat` reduced `% 2 ^ 32`;
  * `Chunk`, `CacheEntry`, `EmbeddingStats`, `Embedder` mirror the data
    model of `embedder.py`; Python floats are modelled as `Rat` (no claim
    below depends on floating-point rounding) and wall-clock readings as
    `0` (no claim mentions them);
  * the remote OpenAI client is an oracle `Nat → List String → ApiOutcome`
    giving the outcome of each successive network attempt.

Definitions come first (the embedding of the source, statement-level
derived functions, and the concrete scenario data); all theorems follow.
-/


/-! ### Definitions: embedding of the source and scenario data -/

/-- Metadata values as they occur in the pipeline (`page`, `section`,
`chunk_index`, …): JSON scalars. -/
inductive JsonVal where
  | str (s : String)
  | num (n : Int)
  | bool (b : Bool)
  | null
deriving DecidableEq, Repr

/-- Hexadecimal digit character (lower case), as produced by Python. -/
def hexChar (n : Nat) : Char :=
  if n < 10 then Char.ofNat (48 + n) else Char.ofNat (87 + n)

/-- `json.dumps` escaping of a single character (`ensure_ascii=True`
default: ASCII passes through, control characters and non-ASCII are
escaped). -/
def jsonEscapeChar (c : Char) : List Char :=
  if c = '"' then ['\\', '"']
  else if c = '\\' then ['\\', '\\']
  else if c = '\n' then ['\\', 'n']
  else if c = '\t' then ['\\', 't']
  else if c = '\r' then ['\\', 'r']
  else if c.toNat < 32 ∨ c.toNat > 126 then
    ['\\', 'u', hexChar (c.toNat / 4096 % 16), hexChar (c.toNat / 256 % 16),
     hexChar (c.toNat / 16 % 16), hexChar (c.toNat % 16)]
  else [c]

/-- JSON string literal serialization. -/
def jsonString (s : String) : List Char :=
  '"' :: s.data.flatMap jsonEscapeChar ++ ['"']

/-- Serialization of one metadata value. -/
def jsonValStr : JsonVal → List Char
  | .str s => jsonString s
  | .num n => (toString n).data
  | .bool true => "true".data
  | .bool false => "false".data
  | .null => "null".data

/-- One `"key": value` item with Python's default `': '` separator. -/
def jsonItemStr (p : String × JsonVal) : List Char :=
  jsonString p.1 ++ ':' :: ' ' :: jsonValStr p.2

/-- Comma-joining with Python's default `', '` separator. -/
def jsonJoin : List (List Char) → List Char
  | [] => []
  | [x] => x
  | x :: xs => x ++ ',' :: ' ' :: jsonJoin xs

/-- Key order used by `sort_keys=True`. -/
def metaKeyLE (a b : String × JsonVal) : Prop := a.1 ≤ b.1

instance : DecidableRel metaKeyLE := fun a b =>
  inferInstanceAs (Decidable (a.1 ≤ b.1))

/-- `json.dumps(metadata, sort_keys=True)`: serialize items sorted by
key. -/
def jsonDumps (meta : List (String × JsonVal)) : String :=
  String.mk ('{' :: jsonJoin ((List.insertionSort metaKeyLE meta).map jsonItemStr) ++ ['}'])

/-- UTF-8 encoding of one character, as `str.encode()` produces. -/
def utf8Bytes (c : Char) : List Nat :=
  let n := c.toNat
  if n < 128 then [n]
  else if n < 2048 then [192 + n / 64, 128 + n % 64]
  else if n < 65536 then [224 + n / 4096, 128 + n / 64 % 64, 128 + n % 64]
  else [240 + n / 262144, 128 + n / 4096 % 64, 128 + n / 64 % 64, 128 + n % 64]

/-- UTF-8 bytes of a string. -/
def strBytes (s : String) : List Nat := s.data.flatMap utf8Bytes

/-- MD5 per-round left-rotation amounts. -/
def md5S : List Nat :=
  [7, 12, 17, 22, 7, 12, 17, 22, 7, 12, 17, 22, 7, 12, 17, 22,
   5, 9, 14, 20, 5, 9, 14, 20, 5, 9, 14, 20, 5, 9, 14, 20,
   4, 11, 16, 23, 4, 11, 16, 23, 4, 11, 16, 23, 4, 11, 16, 23,
   6, 10, 15, 21, 6, 10, 15, 21, 6, 10, 15, 21, 6, 10, 15, 21]

/-- MD5 sine-derived constants `K[i] = floor(2^32 * |sin(i+1)|)`. -/
def md5K : List Nat :=
  [0xd76aa478, 0xe8c7b756, 0x242070db, 0xc1bdceee,
   0xf57c0faf, 0x4787c62a, 0xa8304613, 0xfd469501,
   0x698098d8, 0x8b44f7af, 0xffff5bb1, 0x895cd7be,
   0x6b901122, 0xfd987193, 0xa679438e, 0x49b40821,
   0xf61e2562, 0xc040b340, 0x265e5a51, 0xe9b6c7aa,
   0xd62f105d, 0x02441453, 0xd8a1e681, 0xe7d3fbc8,
   0x21e1cde6, 0xc33707d6, 0xf4d50d87, 0x455a14ed,
   0xa9e3e905, 0xfcefa3f8, 0x676f02d9, 0x8d2a4c8a,
   0xfffa3942, 0x8771f681, 0x6d9d6122, 0xfde5380c,
   0xa4beea44, 0x4bdecfa9, 0xf6bb4b60, 0xbebfbc70,
   0x289b7ec6, 0xeaa127fa, 0xd4ef3085, 0x04881d05,
   0xd9d4d039, 0xe6db99e5, 0x1fa27cf8, 0xc4ac5665,
   0xf4292244, 0x432aff97, 0xab9423a7, 0xfc93a039,
   0x655b59c3, 0x8f0ccc92, 0xffeff47d, 0x85845dd1,
   0x6fa87e4f, 0xfe2ce6e0, 0xa3014314, 0x4e0811a1,
   0xf7537e82, 0xbd3af235, 0x2ad7d2bb, 0xeb86d391]

/-- 32-bit left rotation on `Nat` words. -/
def rotl32 (x s : Nat) : Nat :=
  (x <<< s ||| x >>> (32 - s)) % 2 ^ 32

/-- Bitwise NOT on a 32-bit word. -/
def not32 (x : Nat) : Nat := x ^^^ (2 ^ 32 - 1)

/-- MD5 padding: append `0x80`, zero-fill to 56 mod 64, then the 64-bit
little-endian bit length. -/
def md5Pad (msg : List Nat) : List Nat :=
  let bitLen := msg.length * 8
  let padLen := (55 + 64 - msg.length % 64) % 64
  msg ++ 0x80 :: List.replicate padLen 0 ++
    (List.range 8).map (fun i => bitLen / 256 ^ i % 256)

/-- Split the padded message into 64-byte blocks. -/
def md5Blocks : List Nat → List (List Nat)
  | [] => []
  | b :: rest => (b :: rest).take 64 :: md5Blocks ((b :: rest).drop 64)
termination_by l => l.length
decreasing_by
  simp only [List.length_drop, List.length_cons]
  omega

/-- The 16 little-endian 32-bit message words of one 64-byte block. -/
def md5Words (block : List Nat) : List Nat :=
  (List.range 16).map fun i =>
    block.getD (4 * i) 0 + 256 * block.getD (4 * i + 1) 0 +
    65536 * block.getD (4 * i + 2) 0 + 16777216 * block.getD (4 * i + 3) 0

/-- The MD5 register state `(A, B, C, D)`. -/
structure Md5State where
  a : Nat
  b : Nat
  c : Nat
  d : Nat
deriving DecidableEq, Repr

/-- One of the 64 MD5 operations. -/
def md5Round (m : List Nat) (st : Md5State) (i : Nat) : Md5State :=
  let f :=
    if i < 16 then st.b &&& st.c ||| not32 st.b &&& st.d
    else if i < 32 then st.d &&& st.b ||| not32 st.d &&& st.c
    else if i < 48 then st.b ^^^ st.c ^^^ st.d
    else st.c ^^^ (st.b ||| not32 st.d)
  let g :=
    if i < 16 then i
    else if i < 32 then (5 * i + 1) % 16
    else if i < 48 then (3 * i + 5) % 16
    else 7 * i % 16
  let sum := (st.a + f + md5K.getD i 0 + m.getD g 0) % 2 ^ 32
  { a := st.d, b := (st.b + rotl32 sum (md5S.getD i 0)) % 2 ^ 32, c := st.b, d := st.c }

/-- Process one 64-byte block. -/
def md5Block (st : Md5State) (block : List Nat) : Md5State :=
  let m := md5Words block
  let e := (List.range 64).foldl (md5Round m) st
  { a := (st.a + e.a) % 2 ^ 32, b := (st.b + e.b) % 2 ^ 32,
    c := (st.c + e.c) % 2 ^ 32, d := (st.d + e.d) % 2 ^ 32 }

/-- MD5 initial register values. -/
def md5Init : Md5State :=
  { a := 0x67452301, b := 0xefcdab89, c := 0x98badcfe, d := 0x10325476 }

/-- The 128-bit MD5 digest of a string's UTF-8 bytes, assembled
little-endian (so its base-256 digits are the digest bytes in output
order). -/
def md5Num (s : String) : Nat :=
  let st := (md5Blocks (md5Pad (strBytes s))).foldl md5Block md5Init
  st.a + 2 ^ 32 * st.b + 2 ^ 64 * st.c + 2 ^ 96 * st.d

/-- `hashlib.md5(s.encode()).hexdigest()`: 32 lower-case hex characters,
two per digest byte. -/
def md5Hex (s : String) : String :=
  String.mk ((List.range 16).flatMap fun i =>
    [hexChar (md5Num s / 256 ^ i / 16 % 16), hexChar (md5Num s / 256 ^ i % 16)])

/-- `Chunk` (from `chunkers/base_chunker.py`) as the embedder consumes it:
`content`, `metadata`, and the optional `embeddings` vector.  Vector
components are modelled as `Rat`. -/
structure Chunk where
  content : String
  metadata : List (String × JsonVal)
  embeddings : Option (List Rat) := none
deriving DecidableEq, Repr

/-- A value of the embedder's cache dictionary (`_cache_embedding`).
`timestamp` is the wall-clock string `datetime.now().isoformat()`;
it is modelled as `""` (no claim depends on it). -/
structure CacheEntry where
  embedding : List Rat
  model : String
  dimension : Nat
  timestamp : String
  tokens : Nat
  metadata : List (String × JsonVal)
deriving DecidableEq, Repr

/-- `EmbeddingStats`. `total_time` is wall-clock elapsed and is modelled
as `0`. -/
structure EmbeddingStats where
  total_chunks : Nat := 0
  embedded_chunks : Nat := 0
  cached_chunks : Nat := 0
  failed_chunks : Nat := 0
  total_tokens : Nat := 0
  total_cost : Rat := 0
  total_time : Rat := 0
  api_calls : Nat := 0
  retries : Nat := 0
deriving DecidableEq, Repr

/-- The engine state of an `Embedder` instance: configuration, in-memory
cache dictionary, statistics. -/
structure Embedder where
  model : String
  batch_size : Int
  max_retries : Nat
  retry_delay : Rat
  dimension : Nat
  cache : List (String × CacheEntry)
  stats : EmbeddingStats
deriving DecidableEq, Repr

/-- `PRICE_PER_TOKEN = 0.00013 / 1000`. -/
def PRICE_PER_TOKEN : Rat := 13 / 100000000

/-- Python truthiness of an optional string (`None` and `""` are falsy),
as used by `api_key or os.getenv(...)` and `if not self.api_key`. -/
def pyTruthy : Option String → Bool
  | some s => !s.isEmpty
  | none => false

/-- `Embedder.__init__`: resolve the credential (argument, else
environment variable), failing fast when it is absent; record the
configuration unchecked; adopt the cache loaded from disk (`_load_cache`,
whose disk reading is an external input passed here as `cache0`); start
with fresh statistics.  No validation of `batch_size` or `dimension` is
performed. -/
def mkEmbedder (api_key env_key : Option String) (model : String)
    (batch_size : Int) (max_retries : Nat) (retry_delay : Rat)
    (dimension : Nat) (cache0 : List (String × CacheEntry)) :
    Except String Embedder :=
  let key := if pyTruthy api_key then api_key else env_key
  if pyTruthy key then
    .ok { model := model, batch_size := batch_size, max_retries := max_retries,
          retry_delay := retry_delay, dimension := dimension, cache := cache0,
          stats := {} }
  else
    .error "OpenAI API key not provided. Set OPENAI_API_KEY environment variable or pass api_key parameter."

/-- `_get_cache_key`: `md5((content + ":" + json.dumps(metadata, sort_keys=True)).encode()).hexdigest()`. -/
def cacheKey (c : Chunk) : String :=
  md5Hex (c.content ++ ":" ++ jsonDumps c.metadata)

/-- Python `dict` update `self.cache[key] = entry` on the assoc-list
model: the new binding shadows/replaces any previous one. -/
def alInsert (k : String) (v : CacheEntry) (cache : List (String × CacheEntry)) :
    List (String × CacheEntry) :=
  (k, v) :: cache.filter fun p => p.1 != k

/-- `_is_cached`: key membership in the cache dictionary. -/
def isCached (e : Embedder) (c : Chunk) : Bool :=
  (e.cache.lookup (cacheKey c)).isSome

/-- `_get_cached_embedding`: return the stored vector only when an entry
exists and its recorded model equals the currently configured model. -/
def getCachedEmbedding (e : Embedder) (c : Chunk) : Option (List Rat) :=
  match e.cache.lookup (cacheKey c) with
  | some entry => if entry.model = e.model then some entry.embedding else none
  | none => none

/-- The cache entry `_cache_embedding` writes for a chunk: current model,
configured dimension, estimated token count, and the chunk's metadata. -/
def mkCacheEntry (model : String) (dim : Nat) (c : Chunk) (v : List Rat) : CacheEntry :=
  { embedding := v, model := model, dimension := dim, timestamp := "",
    tokens := c.content.length / 4, metadata := c.metadata }

/-- `_calculate_tokens`: `len(text) // 4` (Python `len` counts code
points, as does `String.length`). -/
def calculateTokens (text : String) : Nat := text.length / 4

/-- Outcome of one remote `embeddings.create` attempt, following the
exception taxonomy the source discriminates on: success,
`RateLimitError`, `APIConnectionError`/`APITimeoutError`, `APIError`,
or any other exception. -/
inductive ApiOutcome where
  | success (embeddings : List (List Rat)) (tokens_used : Nat)
  | rateLimited
  | connectionError
  | apiError
  | unexpectedError
deriving DecidableEq, Repr

/-- Result of `_call_api_with_retry`: the returned value (`none` when an
exception propagated), the number of attempts issued, the sleeps
performed in order, and the increments applied to `stats.api_calls` and
`stats.retries`. -/
structure RetryResult where
  result : Option (List (List Rat) × Nat)
  attempts : Nat
  sleeps : List Rat
  apiCallsDelta : Nat
  retriesDelta : Nat
deriving DecidableEq, Repr

/-- The `while retries <= self.max_retries` loop of
`_call_api_with_retry`.  `cl i` is the outcome of the attempt with index
`attemptIdx + i`; `fuel` is the number of further retries still allowed
(`max_retries - retries`); `delay` is the current backoff delay.  On
success, `api_calls` is incremented and the value returned.  On a
transient error the retry counter is always incremented; when retries
are exhausted the exception propagates, otherwise the loop sleeps
`delay` and continues with `delay * 2`.  On `APIError` or an unexpected
exception the error propagates immediately without sleeping. -/
def retryLoop (cl : Nat → ApiOutcome) (fuel attemptIdx : Nat) (delay : Rat) :
    RetryResult :=
  match cl attemptIdx with
  | .success embs tok =>
      { result := some (embs, tok), attempts := 1, sleeps := [],
        apiCallsDelta := 1, retriesDelta := 0 }
  | .rateLimited =>
      match fuel with
      | 0 => { result := none, attempts := 1, sleeps := [],
               apiCallsDelta := 0, retriesDelta := 1 }
      | f + 1 =>
        let r := retryLoop cl f (attemptIdx + 1) (delay * 2)
        { result := r.result, attempts := r.attempts + 1,
          sleeps := delay :: r.sleeps, apiCallsDelta := r.apiCallsDelta,
          retriesDelta := r.retriesDelta + 1 }
  | .connectionError =>
      match fuel with
      | 0 => { result := none, attempts := 1, sleeps := [],
               apiCallsDelta := 0, retriesDelta := 1 }
      | f + 1 =>
        let r := retryLoop cl f (attemptIdx + 1) (delay * 2)
        { result := r.result, attempts := r.attempts + 1,
          sleeps := delay :: r.sleeps, apiCallsDelta := r.apiCallsDelta,
          retriesDelta := r.retriesDelta + 1 }
  | .apiError =>
      { result := none, attempts := 1, sleeps := [],
        apiCallsDelta := 0, retriesDelta := 0 }
  | .unexpectedError =>
      { result := none, attempts := 1, sleeps := [],
        apiCallsDelta := 0, retriesDelta := 0 }

/-- `_call_api_with_retry` for one batch: at most `1 + max_retries`
attempts starting from attempt index 0 with initial delay
`retry_delay`. -/
def callApiWithRetry (cl : Nat → ApiOutcome) (max_retries : Nat) (retry_delay : Rat) :
    RetryResult :=
  retryLoop cl max_retries 0 retry_delay

/-- The cache-check pass of `embed_chunks` on one chunk: a hit (entry
present, model matching, vector truthy — a Python empty list is falsy)
sets the chunk's `embeddings` and is counted as cached (`false` flag);
otherwise the chunk is appended to `chunks_to_embed` (`true` flag). -/
def chunkFate (e : Embedder) (c : Chunk) : Chunk × Bool :=
  if isCached e c then
    match getCachedEmbedding e c with
    | some v => if v.isEmpty then (c, true) else ({ c with embeddings := some v }, false)
    | none => (c, true)
  else (c, true)

/-- Fuel-indexed batch splitting (structural recursion so the kernel can
evaluate it; the fuel is the list length, which suffices for `1 ≤ bs`). -/
def chunklF (bs : Nat) : Nat → List Chunk → List (List Chunk)
  | _, [] => []
  | 0, _ :: _ => []
  | fuel + 1, c :: rest =>
    if bs = 0 then []
    else (c :: rest).take bs :: chunklF bs fuel ((c :: rest).drop bs)

/-- `chunks_to_embed[i:i + batch_size]` slicing loop: split a list into
batches of `bs` (callers ensure `1 ≤ bs`; `bs = 0` is mapped to no
batches here and is unreachable because the caller raises first). -/
def chunkl (bs : Nat) (l : List Chunk) : List (List Chunk) :=
  chunklF bs l.length l

/-- State threaded through the batch loop: statistics, the cache
dictionary, and the number of remote attempts issued so far (which also
indexes the client oracle). -/
structure BatchState where
  stats : EmbeddingStats
  cache : List (String × CacheEntry)
  attempts : Nat
deriving DecidableEq, Repr

/-- One iteration of the batch loop: call the API through the retry
wrapper; on success assign each returned vector to its chunk in order
(Python `zip` truncates on length mismatch), cache every assigned
vector, and bump the embedded/token statistics; on any exception count
the whole batch as failed and continue. -/
def processBatch (cl : Nat → List String → ApiOutcome) (max_retries : Nat)
    (retry_delay : Rat) (model : String) (dim : Nat)
    (st : BatchState) (batch : List Chunk) : List Chunk × BatchState :=
  let texts := batch.map (·.content)
  let r := callApiWithRetry (fun i => cl (st.attempts + i) texts) max_retries retry_delay
  let stats1 := { st.stats with api_calls := st.stats.api_calls + r.apiCallsDelta,
                                retries := st.stats.retries + r.retriesDelta }
  match r.result with
  | some (embs, _tokens_used) =>
    let zipped := batch.zip embs
    let batch' := zipped.map (fun p => { p.1 with embeddings := some p.2 }) ++
      batch.drop embs.length
    let cache' := zipped.foldl
      (fun cc p => alInsert (cacheKey p.1) (mkCacheEntry model dim p.1 p.2) cc) st.cache
    let stats2 := { stats1 with
      embedded_chunks := stats1.embedded_chunks + zipped.length,
      total_tokens := stats1.total_tokens + (zipped.map fun p => calculateTokens p.1.content).sum }
    (batch', { stats := stats2, cache := cache', attempts := st.attempts + r.attempts })
  | none =>
    (batch, { stats := { stats1 with failed_chunks := stats1.failed_chunks + batch.length },
              cache := st.cache, attempts := st.attempts + r.attempts })

/-- The batch loop over all batches; a batch failure never stops the
iteration. -/
def processBatches (cl : Nat → List String → ApiOutcome) (max_retries : Nat)
    (retry_delay : Rat) (model : String) (dim : Nat) :
    List (List Chunk) → BatchState → List Chunk × BatchState
  | [], st => ([], st)
  | b :: bs, st =>
    let (b', st') := processBatch cl max_retries retry_delay model dim st b
    let (rest, st'') := processBatches cl max_retries retry_delay model dim bs st'
    (b' ++ rest, st'')

/-- Reassemble the full chunk list: cached slots keep their (updated)
chunk, pending slots are filled in order from the processed pending
list (in Python the loop mutates the shared chunk objects; this merge
reproduces the resulting list). -/
def mergePending : List (Chunk × Bool) → List Chunk → List Chunk
  | [], _ => []
  | (c, false) :: rest, ps => c :: mergePending rest ps
  | (_, true) :: rest, p :: ps => p :: mergePending rest ps
  | (c, true) :: rest, [] => c :: mergePending rest []

/-- Result of one `embed_chunks` call: the returned chunk list, the
engine state afterwards, the number of remote attempts issued during the
call, and whether an exception propagated out of the call (Python
mutates `self` and the chunk objects in place, so the updated state and
list are meaningful even then). -/
structure RunResult where
  chunks : List Chunk
  st : Embedder
  attempts : Nat
  raised : Bool
deriving DecidableEq, Repr

/-- `embed_chunks`: record the presented total; satisfy what the cache
can; if nothing is pending return immediately; otherwise compute
`total_batches` (whose `// batch_size` raises `ZeroDivisionError` when
`batch_size = 0`, before any network call), run the batch loop over
`range(0, len(pending), batch_size)` (empty for a negative step, so a
negative batch size silently processes nothing), derive `total_cost`
from the accumulated `total_tokens`, and return the full list. -/
def embedChunks (cl : Nat → List String → ApiOutcome) (e : Embedder)
    (chunks : List Chunk) : RunResult :=
  let stats0 := { e.stats with total_chunks := chunks.length }
  let flagged := chunks.map (chunkFate e)
  let cachedCount := (flagged.filter fun p => !p.2).length
  let stats1 := { stats0 with cached_chunks := stats0.cached_chunks + cachedCount }
  let pending := (flagged.filter (·.2)).map (·.1)
  if pending.isEmpty then
    { chunks := flagged.map (·.1),
      st := { e with stats := { stats1 with total_time := 0 } },
      attempts := 0, raised := false }
  else if e.batch_size = 0 then
    { chunks := flagged.map (·.1), st := { e with stats := stats1 },
      attempts := 0, raised := true }
  else
    let batches := if 1 ≤ e.batch_size then chunkl e.batch_size.toNat pending else []
    let (pending', bst) := processBatches cl e.max_retries e.retry_delay e.model
      e.dimension batches { stats := stats1, cache := e.cache, attempts := 0 }
    let statsF := { bst.stats with
      total_cost := (bst.stats.total_tokens : Rat) * PRICE_PER_TOKEN, total_time := 0 }
    { chunks := mergePending flagged pending',
      st := { e with cache := bst.cache, stats := statsF },
      attempts := bst.attempts, raised := false }

/-- `estimate_cost`: sum of the approximate per-chunk token counts times
the fixed price per token; no state, no network. -/
def estimateCost (chunks : List Chunk) : Rat :=
  ((chunks.map fun c => calculateTokens c.content).sum : Nat) * PRICE_PER_TOKEN

/-- Filesystem operations relevant to cache persistence. -/
inductive FsOp where
  | openTrunc (path : String)
  | write (path : String)
  | close (path : String)
  | rename (src dst : String)
deriving DecidableEq, Repr

/-- The operations `_save_cache` performs: `open(self.cache_file, 'w')`
(truncating the cache file in place), `json.dump`, close.  No temporary
file and no rename are involved. -/
def saveCacheTrace (cachePath : String) : List FsOp :=
  [.openTrunc cachePath, .write cachePath, .close cachePath]

/-- The write-to-temp-then-rename discipline the specification requires
of `flush()`: all writing happens at some temporary path distinct from
the final one, which is then renamed onto the final path; in particular
the final path itself is never opened for truncating write. -/
def atomicFlushPattern (trace : List FsOp) (finalPath : String) : Prop :=
  (∃ tmp, tmp ≠ finalPath ∧ FsOp.write tmp ∈ trace ∧ FsOp.rename tmp finalPath ∈ trace) ∧
    FsOp.openTrunc finalPath ∉ trace

/-- A stable mock client: every attempt succeeds, embedding each text
`t` as `f t`; `tokOf` is the (discarded) token usage reported by the
API on the n-th attempt. -/
def stableClient (f : String → List Rat) (tokOf : Nat → Nat) :
    Nat → List String → ApiOutcome :=
  fun n texts => .success (texts.map f) (tokOf n)

/-- A per-batch outcome pattern: batch `j` (equivalently attempt `j`,
since every batch uses exactly one attempt under this client) succeeds
with vectors `f` when `pat j` is true and fails fatally otherwise. -/
def patternClient (pat : Nat → Bool) (f : String → List Rat) :
    Nat → List String → ApiOutcome :=
  fun n texts => if pat n then .success (texts.map f) 0 else .apiError

def ApiOutcome.transient (o : ApiOutcome) : Prop :=
  o = .rateLimited ∨ o = .connectionError

def ApiOutcome.fatal (o : ApiOutcome) : Prop :=
  o = .apiError ∨ o = .unexpectedError

/-- A client whose every attempt is rate-limited. -/
def alwaysRateLimited : Nat → ApiOutcome := fun _ => .rateLimited

/-- A full client (batch-level) whose every attempt is rate-limited. -/
def alwaysRateLimitedClient : Nat → List String → ApiOutcome := fun _ _ => .rateLimited

/-- A client whose every attempt hits a connection error. -/
def alwaysConnErr : Nat → ApiOutcome := fun _ => .connectionError

/-- The stable mock vector function used by concrete scenarios. -/
def mockVec (t : String) : List Rat := [(t.length : Rat), 1]

/-- The stable mock client used by concrete scenarios. -/
def mockClient : Nat → List String → ApiOutcome := stableClient mockVec fun _ => 0

/-- Concrete chunk used in configuration counterexamples. -/
def chunkY : Chunk := { content := "yyyy", metadata := [("page", JsonVal.num 1)] }

/-- The engine state `mkEmbedder` produces for batch size `-1`. -/
def engineNegBS : Embedder :=
  { model := "m", batch_size := -1, max_retries := 3, retry_delay := 1,
    dimension := 2, cache := [], stats := {} }

/-- The value a chunk receives from the cache-check pass, `none` when the
chunk is sent on to `chunks_to_embed` (no entry, model mismatch, or a
falsy empty vector). -/
def hitVal (e : Embedder) (c : Chunk) : Option (List Rat) :=
  match getCachedEmbedding e c with
  | some v => if v.isEmpty then none else some v
  | none => none

/-- The cache write performed for a freshly embedded chunk whose vector
is produced by the stable client `f`. -/
def insertChunkVec (mdl : String) (dim : Nat) (f : String → List Rat)
    (cc : List (String × CacheEntry)) (c : Chunk) : List (String × CacheEntry) :=
  alInsert (cacheKey c) (mkCacheEntry mdl dim c (f c.content)) cc

/-- The chunk list produced when batch `j` succeeds iff `pat j`, starting
from batch index `j0`. -/
def patChunks (pat : Nat → Bool) (f : String → List Rat) :
    Nat → List (List Chunk) → List Chunk
  | _, [] => []
  | j, b :: bs =>
    (if pat j then b.map (fun c => { c with embeddings := some (f c.content) }) else b)
      ++ patChunks pat f (j + 1) bs

/-- Units in batches whose outcome flag equals `target`. -/
def patCount (pat : Nat → Bool) (target : Bool) : Nat → List (List Chunk) → Nat
  | _, [] => 0
  | j, b :: bs => (if pat j = target then b.length else 0) + patCount pat target (j + 1) bs

/-- Estimated tokens accumulated over the successful batches. -/
def patTokens (pat : Nat → Bool) : Nat → List (List Chunk) → Nat
  | _, [] => 0
  | j, b :: bs =>
    (if pat j then (b.map fun c => calculateTokens c.content).sum else 0) +
      patTokens pat (j + 1) bs

/-- Successful remote calls over the batches. -/
def patCalls (pat : Nat → Bool) : Nat → List (List Chunk) → Nat
  | _, [] => 0
  | j, _ :: bs => (if pat j then 1 else 0) + patCalls pat (j + 1) bs

/-- Cache contents after the batch loop under the outcome pattern. -/
def patCache (pat : Nat → Bool) (f : String → List Rat) (mdl : String) (dim : Nat) :
    Nat → List (List Chunk) → List (String × CacheEntry) → List (String × CacheEntry)
  | _, [], cc => cc
  | j, b :: bs, cc =>
    patCache pat f mdl dim (j + 1) bs
      (if pat j then b.foldl (insertChunkVec mdl dim f) cc else cc)

/-- The per-chunk result of a fully successful stable-client run. -/
def stableResult (e : Embedder) (f : String → List Rat) (c : Chunk) : Chunk :=
  match hitVal e c with
  | some v => { c with embeddings := some v }
  | none => { c with embeddings := some (f c.content) }

/-- The vector the chunk carries after such a run. -/
def stableVec (e : Embedder) (f : String → List Rat) (c : Chunk) : List Rat :=
  match hitVal e c with
  | some v => v
  | none => f c.content

/-- All four MD5 registers fit in 32 bits. -/
def Md5State.bounded (st : Md5State) : Prop :=
  st.a < 2 ^ 32 ∧ st.b < 2 ^ 32 ∧ st.c < 2 ^ 32 ∧ st.d < 2 ^ 32

/-- The nth probe chunk: `n` copies of `a`, empty metadata. -/
def probeChunk (n : Nat) : Chunk :=
  { content := String.mk (List.replicate n 'a'), metadata := [], embeddings := none }

instance : IsTotal (String × JsonVal) metaKeyLE :=
  ⟨fun a b => le_total a.1 b.1⟩

instance : IsTrans (String × JsonVal) metaKeyLE :=
  ⟨fun _ _ _ h1 h2 => le_trans h1 h2⟩

/-- A client whose every attempt raises `APIError`. -/
def alwaysApiErrorClient : Nat → List String → ApiOutcome := fun _ _ => .apiError

/-- Fresh engine used by concrete statistics scenarios. -/
def engineB1 : Embedder :=
  { model := "m", batch_size := 2, max_retries := 1, retry_delay := 1,
    dimension := 2, cache := [], stats := {} }

/-- Concrete chunk for the statistics counterexample. -/
def chunkX : Chunk := { content := "xxxx", metadata := [] }

/-- Fresh engine for the idempotence witness. -/
def engineA : Embedder :=
  { model := "text-embedding-3-large", batch_size := 2, max_retries := 3,
    retry_delay := 1, dimension := 2, cache := [], stats := {} }

/-- Concrete chunk for the idempotence witness. -/
def chunkA : Chunk := { content := "hello", metadata := [("page", JsonVal.num 1)] }

/-- The batch outcome pattern of the three-batch scenario: the second
batch (index 1) always fails. -/
def patSecondFails : Nat → Bool := fun j => j != 1

/-- Fresh engine with batch size 2 for the isolation witness. -/
def engine4 : Embedder :=
  { model := "m", batch_size := 2, max_retries := 0, retry_delay := 1,
    dimension := 1, cache := [], stats := {} }

/-- Five one-character chunks: batches of 2, 2, 1. -/
def chunks5 : List Chunk :=
  [{ content := "a", metadata := [] }, { content := "b", metadata := [] },
   { content := "c", metadata := [] }, { content := "d", metadata := [] },
   { content := "e", metadata := [] }]

/-- The engine state `mkEmbedder` produces for batch size `0`. -/
def engineZeroBS : Embedder :=
  { model := "m", batch_size := 0, max_retries := 3, retry_delay := 1,
    dimension := 2, cache := [], stats := {} }

/-- Chunk cached under the old model in the invalidation witness. -/
def chunkOld : Chunk := { content := "zzzz", metadata := [("page", JsonVal.num 3)] }

/-- Cache entry recorded under the superseded model `old-model`. -/
def entryOld : CacheEntry :=
  { embedding := [5, 5], model := "old-model", dimension := 2, timestamp := "",
    tokens := 1, metadata := chunkOld.metadata }

/-- Engine configured with model `m` whose cache holds `chunkOld` under
`old-model`. -/
def engineMism : Embedder :=
  { model := "m", batch_size := 2, max_retries := 3, retry_delay := 1,
    dimension := 2, cache := [(cacheKey chunkOld, entryOld)], stats := {} }

/-- Metadata in one insertion order. -/
def chunkMeta1 : Chunk :=
  { content := "t", metadata := [("page", JsonVal.num 1), ("section", JsonVal.str "x")] }

/-- The same metadata inserted in the other order. -/
def chunkMeta2 : Chunk :=
  { content := "t", metadata := [("section", JsonVal.str "x"), ("page", JsonVal.num 1)] }

/-! ### Theorems -/

theorem retryLoop_attempts_le (cl : Nat → ApiOutcome) :
    ∀ (fuel idx : Nat) (d : Rat), (retryLoop cl fuel idx d).attempts ≤ fuel + 1 := by
  intro fuel
  induction fuel with
  | zero =>
    intro idx d
    cases h : cl idx <;> simp [retryLoop, h]
  | succ n ih =>
    intro idx d
    cases h : cl idx <;> simp [retryLoop, h]
    · exact ih (idx + 1) (d * 2)
    · exact ih (idx + 1) (d * 2)

theorem retryLoop_sleeps_form (cl : Nat → ApiOutcome) :
    ∀ (fuel idx : Nat) (d : Rat),
      (retryLoop cl fuel idx d).sleeps =
        (List.range (retryLoop cl fuel idx d).sleeps.length).map fun i => d * 2 ^ i := by
  intro fuel
  induction fuel with
  | zero =>
    intro idx d
    cases h : cl idx <;> simp [retryLoop, h]
  | succ n ih =>
    intro idx d
    cases h : cl idx <;> simp only [retryLoop, h] <;> try simp
    all_goals
      have hrec := ih (idx + 1) (d * 2)
      simp only [List.length_cons, List.range_succ_eq_map, List.map_cons, List.map_map,
        pow_zero, mul_one]
      congr 1
      conv_lhs => rw [hrec]
      refine List.map_congr_left fun i _ => ?_
      simp only [Function.comp_apply]
      rw [pow_succ, mul_assoc, mul_comm (2 : Rat) (2 ^ i)]

theorem retryLoop_always_transient (cl : Nat → ApiOutcome) :
    ∀ (fuel idx : Nat) (d : Rat), (∀ i, (cl i).transient) →
      (retryLoop cl fuel idx d).attempts = fuel + 1 ∧
      (retryLoop cl fuel idx d).result = none ∧
      (retryLoop cl fuel idx d).sleeps.length = fuel ∧
      (retryLoop cl fuel idx d).retriesDelta = fuel + 1 ∧
      (retryLoop cl fuel idx d).apiCallsDelta = 0 := by
  intro fuel
  induction fuel with
  | zero =>
    intro idx d htr
    rcases htr idx with h | h <;> simp [retryLoop, h]
  | succ n ih =>
    intro idx d htr
    rcases htr idx with h | h <;>
      simpa [retryLoop, h] using ih (idx + 1) (d * 2) htr

theorem retryLoop_fatal_at (cl : Nat → ApiOutcome) :
    ∀ (k fuel idx : Nat) (d : Rat), (cl (idx + k)).fatal →
      (∀ i, i < k → (cl (idx + i)).transient) → k ≤ fuel →
      (retryLoop cl fuel idx d).attempts = k + 1 ∧
      (retryLoop cl fuel idx d).result = none ∧
      (retryLoop cl fuel idx d).sleeps.length = k ∧
      (retryLoop cl fuel idx d).retriesDelta = k ∧
      (retryLoop cl fuel idx d).apiCallsDelta = 0 := by
  intro k
  induction k with
  | zero =>
    intro fuel idx d hf _ _
    rw [Nat.add_zero] at hf
    rcases hf with h | h <;> cases fuel <;> simp [retryLoop, h]
  | succ m ih =>
    intro fuel idx d hf htr hle
    rcases htr 0 (Nat.succ_pos m) with h | h
    all_goals
      rw [Nat.add_zero] at h
      cases fuel with
      | zero => omega
      | succ n =>
        have hf' : (cl (idx + 1 + m)).fatal := by
          have he : idx + 1 + m = idx + (m + 1) := by omega
          rw [he]; exact hf
        have htr' : ∀ i, i < m → (cl (idx + 1 + i)).transient := by
          intro i hi
          have he : idx + 1 + i = idx + (i + 1) := by omega
          rw [he]; exact htr (i + 1) (by omega)
        have hrec := ih n (idx + 1) (d * 2) hf' htr' (by omega)
        simp only [retryLoop, h, List.length_cons]
        refine ⟨by omega, hrec.2.1, by omega, by omega, hrec.2.2.2.2⟩

theorem retryLoop_success_result (cl : Nat → ApiOutcome) :
    ∀ (fuel idx : Nat) (d : Rat) (embs : List (List Rat)) (tok : Nat),
      (retryLoop cl fuel idx d).result = some (embs, tok) →
      ∃ i, cl i = .success embs tok := by
  intro fuel
  induction fuel with
  | zero =>
    intro idx d embs tok h
    revert h
    cases hc : cl idx <;> simp [retryLoop, hc]
    intro h1 h2
    exact ⟨idx, by rw [hc, h1, h2]⟩
  | succ n ih =>
    intro idx d embs tok h
    revert h
    cases hc : cl idx <;> simp [retryLoop, hc]
    · intro h1 h2
      exact ⟨idx, by rw [hc, h1, h2]⟩
    · intro h
      exact ih (idx + 1) (d * 2) embs tok h
    · intro h
      exact ih (idx + 1) (d * 2) embs tok h

theorem retryLoop_first_success (cl : Nat → ApiOutcome)
    (fuel idx : Nat) (d : Rat) (embs : List (List Rat)) (tok : Nat)
    (h : cl idx = .success embs tok) :
    retryLoop cl fuel idx d =
      { result := some (embs, tok), attempts := 1, sleeps := [],
        apiCallsDelta := 1, retriesDelta := 0 } := by
  cases fuel <;> simp [retryLoop, h]

theorem retryLoop_first_fatal (cl : Nat → ApiOutcome)
    (fuel idx : Nat) (d : Rat) (h : (cl idx).fatal) :
    retryLoop cl fuel idx d =
      { result := none, attempts := 1, sleeps := [],
        apiCallsDelta := 0, retriesDelta := 0 } := by
  rcases h with h | h <;> cases fuel <;> simp [retryLoop, h]

theorem processBatch_transient_failed (clb : Nat → List String → ApiOutcome)
    (m : Nat) (d : Rat) (mdl : String) (dim : Nat) (st : BatchState)
    (batch : List Chunk) (h : ∀ i ts, (clb i ts).transient) :
    (processBatch clb m d mdl dim st batch).1 = batch ∧
    (processBatch clb m d mdl dim st batch).2.stats.failed_chunks =
      st.stats.failed_chunks + batch.length ∧
    (processBatch clb m d mdl dim st batch).2.attempts = st.attempts + (m + 1) := by
  have hall := retryLoop_always_transient
    (fun i => clb (st.attempts + i) (batch.map (·.content))) m 0 d (fun i => h _ _)
  rcases hall with ⟨ha, hres, _, _, _⟩
  simp only [processBatch, callApiWithRetry] at *
  rw [hres, ha]
  simp

/-- C2: retry bound of `_call_api_with_retry`.  For every client and every
non-negative `max_retries`, at most `1 + max_retries` attempts are issued;
the `j`-th sleep is `retry_delay * 2 ^ j` (index starting at 0), so each
retry is preceded by exponential backoff; a client that always raises a
transient error is attempted exactly `1 + max_retries` times and the
failure then propagates; a fatal error after `k` transient failures stops
after attempt `k + 1` without a further sleep; and the batch whose every
attempt is transient is marked failed in full. -/
theorem call_api_retry_bound (cl : Nat → ApiOutcome) (max_retries : Nat) (d : Rat) :
    (callApiWithRetry cl max_retries d).attempts ≤ 1 + max_retries ∧
    (callApiWithRetry cl max_retries d).sleeps =
      (List.range (callApiWithRetry cl max_retries d).sleeps.length).map
        (fun i => d * 2 ^ i) ∧
    ((∀ i, (cl i).transient) →
      (callApiWithRetry cl max_retries d).attempts = 1 + max_retries ∧
      (callApiWithRetry cl max_retries d).result = none ∧
      (callApiWithRetry cl max_retries d).sleeps.length = max_retries) ∧
    (∀ k, k ≤ max_retries → (cl k).fatal → (∀ i, i < k → (cl i).transient) →
      (callApiWithRetry cl max_retries d).attempts = k + 1 ∧
      (callApiWithRetry cl max_retries d).result = none ∧
      (callApiWithRetry cl max_retries d).sleeps.length = k) ∧
    (∀ (clb : Nat → List String → ApiOutcome) (mdl : String) (dim : Nat)
       (st : BatchState) (batch : List Chunk), (∀ i ts, (clb i ts).transient) →
      (processBatch clb max_retries d mdl dim st batch).2.stats.failed_chunks =
        st.stats.failed_chunks + batch.length) := by
  refine ⟨?_, ?_, ?_, ?_, ?_⟩
  · rw [Nat.add_comm]
    exact retryLoop_attempts_le cl max_retries 0 d
  · exact retryLoop_sleeps_form cl max_retries 0 d
  · intro htr
    have h := retryLoop_always_transient cl max_retries 0 d htr
    exact ⟨by rw [Nat.add_comm]; exact h.1, h.2.1, h.2.2.1⟩
  · intro k hk hf htr
    have h := retryLoop_fatal_at cl k max_retries 0 d (by simpa using hf)
      (fun i hi => by simpa using htr i hi) hk
    exact ⟨h.1, h.2.1, h.2.2.1⟩
  · intro clb mdl dim st batch h
    exact (processBatch_transient_failed clb max_retries d mdl dim st batch h).2.1

/-- C2 witness: `max_retries = 2` with an always-rate-limited client makes
exactly 3 attempts, propagates the failure, and sleeps `1, 2` seconds. -/
theorem call_api_retry_bound_witness :
    (callApiWithRetry alwaysRateLimited 2 1).attempts = 1 + 2 ∧
    (callApiWithRetry alwaysRateLimited 2 1).result = none ∧
    (callApiWithRetry alwaysRateLimited 2 1).sleeps = [1 * 2 ^ 0, 1 * 2 ^ 1] := by
  have h := call_api_retry_bound alwaysRateLimited 2 1
  have h3 := h.2.2.1 (fun i => Or.inl rfl)
  refine ⟨h3.1, h3.2.1, ?_⟩
  have hs := h.2.1
  rw [h3.2.2] at hs
  simpa using hs

/-- C8 counterexample: with `max_retries = 2` and an always-rate-limited
client, 3 remote calls are issued but `api_calls` is incremented 0 times
(it counts only successful calls) and `retries` 3 times (not 2): the
claimed counter semantics is false on this input. -/
theorem call_retry_counters_cex :
    (callApiWithRetry alwaysRateLimited 2 1).attempts = 3 ∧
    (callApiWithRetry alwaysRateLimited 2 1).apiCallsDelta = 0 ∧
    (callApiWithRetry alwaysRateLimited 2 1).retriesDelta = 3 ∧
    ¬((callApiWithRetry alwaysRateLimited 2 1).apiCallsDelta =
        (callApiWithRetry alwaysRateLimited 2 1).attempts ∧
      (callApiWithRetry alwaysRateLimited 2 1).retriesDelta = 2) := by
  decide

/-- C8 amended: `api_calls` counts only the attempts that succeed (one
per successful call), and `retries` is incremented once per transient
failure including the final attempt that exhausts the budget; so an
always-transiently-failing call with `max_retries = m` records 0 api
calls and `m + 1` retries while issuing `m + 1` attempts, a first-attempt
success records 1 api call and 0 retries, and a fatal error after `k`
transient failures records 0 api calls and `k` retries. -/
theorem call_retry_counters (cl : Nat → ApiOutcome) (m : Nat) (d : Rat) :
    ((∀ i, (cl i).transient) →
      (callApiWithRetry cl m d).attempts = m + 1 ∧
      (callApiWithRetry cl m d).apiCallsDelta = 0 ∧
      (callApiWithRetry cl m d).retriesDelta = m + 1) ∧
    (∀ embs tok, cl 0 = .success embs tok →
      (callApiWithRetry cl m d).attempts = 1 ∧
      (callApiWithRetry cl m d).apiCallsDelta = 1 ∧
      (callApiWithRetry cl m d).retriesDelta = 0) ∧
    (∀ k, k ≤ m → (cl k).fatal → (∀ i, i < k → (cl i).transient) →
      (callApiWithRetry cl m d).attempts = k + 1 ∧
      (callApiWithRetry cl m d).apiCallsDelta = 0 ∧
      (callApiWithRetry cl m d).retriesDelta = k) := by
  refine ⟨?_, ?_, ?_⟩
  · intro htr
    have h := retryLoop_always_transient cl m 0 d htr
    exact ⟨h.1, h.2.2.2.2, h.2.2.2.1⟩
  · intro embs tok hs
    rw [callApiWithRetry, retryLoop_first_success cl m 0 d embs tok hs]
    exact ⟨rfl, rfl, rfl⟩
  · intro k hk hf htr
    have h := retryLoop_fatal_at cl k m 0 d (by simpa using hf)
      (fun i hi => by simpa using htr i hi) hk
    exact ⟨h.1, h.2.2.2.2, h.2.2.2.1⟩

/-- C8 witness: an always-connection-erroring client with
`max_retries = 1` issues 2 attempts, recording 0 api calls and 2
retries. -/
theorem call_retry_counters_witness :
    (callApiWithRetry alwaysConnErr 1 2).attempts = 2 ∧
    (callApiWithRetry alwaysConnErr 1 2).apiCallsDelta = 0 ∧
    (callApiWithRetry alwaysConnErr 1 2).retriesDelta = 2 :=
  (call_retry_counters alwaysConnErr 1 2).1 (fun _ => Or.inr rfl)

theorem mergePending_nil : ∀ l : List (Chunk × Bool), mergePending l [] = l.map (·.1) := by
  intro l
  induction l with
  | nil => rfl
  | cons p rest ih =>
    rcases p with ⟨c, b⟩
    cases b <;> simp [mergePending, ih]

/-- C7 counterexample: `_save_cache` does not follow the
write-to-temp-then-rename discipline the claim describes — its trace
opens the cache file itself for truncating write and contains no
rename. -/
theorem save_cache_not_atomic_cex :
    ¬ atomicFlushPattern (saveCacheTrace "outputs/embeddings_cache/embeddings_cache.json")
        "outputs/embeddings_cache/embeddings_cache.json" := by
  intro h
  exact h.2 (by simp [saveCacheTrace])

/-- C7 amended: every flush writes the serialized cache directly over
the cache file (`open(self.cache_file, 'w')` then `json.dump`), with no
temporary file and no rename; repeated calls perform the same
operations, but an interruption mid-write can corrupt the previously
persisted state. -/
theorem save_cache_direct_write (path : String) :
    saveCacheTrace path =
      [FsOp.openTrunc path, FsOp.write path, FsOp.close path] ∧
    (∀ src dst, FsOp.rename src dst ∉ saveCacheTrace path) ∧
    (saveCacheTrace path).head? = some (FsOp.openTrunc path) := by
  refine ⟨rfl, ?_, rfl⟩
  intro src dst h
  simp [saveCacheTrace] at h

/-- C5 counterexample: a batch size of `-1` is accepted by the
constructor, and `embed_chunks` then completes without raising any
error, issuing no remote call and leaving the unit unembedded and
counted neither as embedded nor as failed — no configuration error is
reported. -/
theorem config_error_cex :
    mkEmbedder (some "k") none "m" (-1) 3 1 2 [] = .ok engineNegBS ∧
    (embedChunks mockClient engineNegBS [chunkY]).raised = false ∧
    (embedChunks mockClient engineNegBS [chunkY]).attempts = 0 ∧
    (embedChunks mockClient engineNegBS [chunkY]).chunks = [chunkY] ∧
    (embedChunks mockClient engineNegBS [chunkY]).st.stats.embedded_chunks = 0 ∧
    (embedChunks mockClient engineNegBS [chunkY]).st.stats.failed_chunks = 0 ∧
    (embedChunks mockClient engineNegBS [chunkY]).st.stats.cached_chunks = 0 :=
  ⟨rfl, by decide⟩

/-- C5 amended: only the missing credential is checked early — a `None`
or empty key fails fast at construction, while any batch size (including
0 and negatives) is accepted unchecked; a batch size of 0 only surfaces
later as a `ZeroDivisionError` inside `embed_chunks` (before any network
call) when units are pending, and a negative batch size silently
processes zero batches, leaving every pending unit unembedded and
uncounted. -/
theorem config_error_behavior :
    (∀ model bs mr rd dim c0,
      mkEmbedder none none model bs mr rd dim c0 =
        .error "OpenAI API key not provided. Set OPENAI_API_KEY environment variable or pass api_key parameter." ∧
      mkEmbedder (some "") none model bs mr rd dim c0 =
        .error "OpenAI API key not provided. Set OPENAI_API_KEY environment variable or pass api_key parameter.") ∧
    (∀ key model bs mr rd dim c0, key ≠ "" →
      mkEmbedder (some key) none model bs mr rd dim c0 =
        .ok { model := model, batch_size := bs, max_retries := mr,
              retry_delay := rd, dimension := dim, cache := c0, stats := {} }) ∧
    (∀ cl (e : Embedder) chunks, e.batch_size = 0 →
      (chunks.map (chunkFate e)).filter (·.2) ≠ [] →
      (embedChunks cl e chunks).raised = true ∧
      (embedChunks cl e chunks).attempts = 0) ∧
    (∀ cl (e : Embedder) chunks, e.batch_size < 0 →
      (embedChunks cl e chunks).raised = false ∧
      (embedChunks cl e chunks).attempts = 0 ∧
      (embedChunks cl e chunks).chunks = (chunks.map (chunkFate e)).map (·.1) ∧
      (embedChunks cl e chunks).st.stats.embedded_chunks = e.stats.embedded_chunks ∧
      (embedChunks cl e chunks).st.stats.failed_chunks = e.stats.failed_chunks) := by
  refine ⟨?_, ?_, ?_, ?_⟩
  · intro model bs mr rd dim c0
    exact ⟨rfl, rfl⟩
  · intro key model bs mr rd dim c0 hk
    have hke : key.isEmpty = false := by
      rw [Bool.eq_false_iff]
      simpa [String.isEmpty_iff] using hk
    simp [mkEmbedder, pyTruthy, hke]
  · intro cl e chunks h0 hne
    have hpe : (((chunks.map (chunkFate e)).filter (·.2)).map (·.1)).isEmpty = false := by
      rw [Bool.eq_false_iff]
      simpa [List.isEmpty_iff] using hne
    simp only [embedChunks, hpe, h0]
    simp
  · intro cl e chunks hneg
    have h0 : ¬ e.batch_size = 0 := by omega
    have h1 : ¬ (1 : Int) ≤ e.batch_size := by omega
    by_cases hpe : ((chunks.map (chunkFate e)).filter (·.2)).map (·.1) = []
    · have hpe2 : (((chunks.map (chunkFate e)).filter (·.2)).map (·.1)).isEmpty = true := by
        simpa [List.isEmpty_iff] using hpe
      simp only [embedChunks, hpe2]
      simp
    · have hpe2 : (((chunks.map (chunkFate e)).filter (·.2)).map (·.1)).isEmpty = false := by
        rw [Bool.eq_false_iff]
        simpa [List.isEmpty_iff] using hpe
      simp only [embedChunks, hpe2, if_neg h0, if_neg h1]
      simp [processBatches, mergePending_nil]

theorem chunkFate_eq_hitVal (e : Embedder) (c : Chunk) :
    chunkFate e c = match hitVal e c with
      | some v => ({ c with embeddings := some v }, false)
      | none => (c, true) := by
  unfold chunkFate hitVal isCached getCachedEmbedding
  cases h : e.cache.lookup (cacheKey c) with
  | none => simp
  | some entry =>
    by_cases hm : entry.model = e.model
    · by_cases hv : entry.embedding.isEmpty <;> simp [hm, hv]
    · simp [hm]

theorem mergePending_map_filter (hfun : Chunk → Chunk) :
    ∀ flagged : List (Chunk × Bool),
      mergePending flagged (((flagged.filter (·.2)).map (·.1)).map hfun) =
        flagged.map fun p => if p.2 then hfun p.1 else p.1 := by
  intro flagged
  induction flagged with
  | nil => rfl
  | cons p rest ih =>
    rcases p with ⟨c, b⟩
    simp only [List.map_map] at ih
    cases b <;> simp [mergePending, List.filter, ih]

theorem chunklF_fuel (bs : Nat) :
    ∀ (l : List Chunk) (fuel1 fuel2 : Nat), l.length ≤ fuel1 → l.length ≤ fuel2 →
      chunklF bs fuel1 l = chunklF bs fuel2 l := by
  intro l
  generalize hn : l.length = n
  induction n using Nat.strong_induction_on generalizing l with
  | _ n ih =>
    intro fuel1 fuel2 h1 h2
    cases l with
    | nil => cases fuel1 <;> cases fuel2 <;> rfl
    | cons c rest =>
      rw [← hn] at h1 h2
      simp only [List.length_cons] at h1 h2
      cases fuel1 with
      | zero => omega
      | succ f1 =>
        cases fuel2 with
        | zero => omega
        | succ f2 =>
          by_cases hbs0 : bs = 0
          · simp [chunklF, hbs0]
          · have hb1 : 1 ≤ bs := by omega
            have hlen : ((c :: rest).drop bs).length < n := by
              rw [← hn]
              simp only [List.length_drop, List.length_cons]
              omega
            simp only [chunklF, hbs0, if_false]
            congr 1
            exact ih _ hlen _ rfl f1 f2
              (by simp only [List.length_drop, List.length_cons]; omega)
              (by simp only [List.length_drop, List.length_cons]; omega)

theorem chunkl_eq (bs : Nat) (l : List Chunk) :
    chunkl bs l = match l with
      | [] => []
      | c :: rest =>
        if bs = 0 then [] else (c :: rest).take bs :: chunkl bs ((c :: rest).drop bs) := by
  cases l with
  | nil => rfl
  | cons c rest =>
    by_cases hbs0 : bs = 0
    · simp [chunkl, chunklF, hbs0]
    · simp only [chunkl, List.length_cons, chunklF, hbs0, if_false]
      rw [chunklF_fuel bs ((c :: rest).drop bs) rest.length ((c :: rest).drop bs).length
        ?h1 le_rfl]
      case h1 =>
        simp only [List.length_drop, List.length_cons]
        omega

theorem chunkl_flatten (bs : Nat) (hbs : 1 ≤ bs) :
    ∀ l : List Chunk, (chunkl bs l).flatten = l := by
  intro l
  generalize hn : l.length = n
  induction n using Nat.strong_induction_on generalizing l with
  | _ n ih =>
    cases l with
    | nil => simp [chunkl, chunklF]
    | cons c rest =>
      rw [chunkl_eq]
      have hbs0 : ¬ bs = 0 := by omega
      simp only [hbs0, if_false]
      have hlt : ((c :: rest).drop bs).length < n := by
        rw [← hn]
        simp only [List.length_drop, List.length_cons]
        omega
      rw [List.flatten_cons, ih _ hlt _ rfl, List.take_append_drop]

theorem lookup_filter_ne (k k' : String) (hne : k' ≠ k) :
    ∀ l : List (String × CacheEntry),
      (l.filter fun p => p.1 != k).lookup k' = l.lookup k' := by
  intro l
  induction l with
  | nil => rfl
  | cons p rest ih =>
    rcases p with ⟨pk, pv⟩
    by_cases hk : pk = k
    · subst hk
      have hb1 : (pk != pk) = false := by simp
      have hb2 : (k' == pk) = false := by simpa [beq_eq_false_iff_ne] using hne
      simp [List.filter, List.lookup, hb1, hb2, ih]
    · have hb3 : (pk != k) = true := by simpa using hk
      by_cases hk' : pk = k'
      · have hb4 : (k' == pk) = true := by simp [hk']
        simp [List.filter, List.lookup, hb3, hb4]
      · have hb4 : (k' == pk) = false := by
          simp only [beq_eq_false_iff_ne]
          exact fun h => hk' h.symm
        simp [List.filter, List.lookup, hb3, hb4, ih]

theorem lookup_alInsert_self (k : String) (v : CacheEntry) (l : List (String × CacheEntry)) :
    (alInsert k v l).lookup k = some v := by
  simp [alInsert, List.lookup]

theorem lookup_alInsert_ne (k k' : String) (v : CacheEntry)
    (l : List (String × CacheEntry)) (hne : k' ≠ k) :
    (alInsert k v l).lookup k' = l.lookup k' := by
  have hb : (k' == k) = false := by simpa [beq_eq_false_iff_ne] using hne
  simp [alInsert, List.lookup, hb, lookup_filter_ne k k' hne]

theorem lookup_foldl_insertChunkVec_not_mem (mdl : String) (dim : Nat)
    (f : String → List Rat) (k : String) :
    ∀ (l : List Chunk) (cc : List (String × CacheEntry)),
      (∀ c' ∈ l, cacheKey c' ≠ k) →
      (l.foldl (insertChunkVec mdl dim f) cc).lookup k = cc.lookup k := by
  intro l
  induction l with
  | nil => intro cc _; rfl
  | cons c rest ih =>
    intro cc hk
    rw [List.foldl_cons, ih _ (fun c' hc' => hk c' (List.mem_cons_of_mem _ hc'))]
    exact lookup_alInsert_ne _ _ _ _ (fun h => hk c (List.mem_cons_self _ _) h.symm)

theorem lookup_foldl_insertChunkVec_mem (mdl : String) (dim : Nat)
    (f : String → List Rat) (c : Chunk) :
    ∀ (l : List Chunk) (cc : List (String × CacheEntry)),
      (cc.lookup (cacheKey c) = some (mkCacheEntry mdl dim c (f c.content)) ∨ c ∈ l) →
      (∀ c' ∈ l, cacheKey c' = cacheKey c →
        mkCacheEntry mdl dim c' (f c'.content) = mkCacheEntry mdl dim c (f c.content)) →
      (l.foldl (insertChunkVec mdl dim f) cc).lookup (cacheKey c) =
        some (mkCacheEntry mdl dim c (f c.content)) := by
  intro l
  induction l with
  | nil =>
    intro cc hbase _
    rcases hbase with h | h
    · exact h
    · cases h
  | cons c'' rest ih =>
    intro cc hbase hcons
    rw [List.foldl_cons]
    by_cases hk : cacheKey c'' = cacheKey c
    · refine ih _ (Or.inl ?_) (fun c' hc' => hcons c' (List.mem_cons_of_mem _ hc'))
      rw [insertChunkVec, ← hk, lookup_alInsert_self,
        hcons c'' (List.mem_cons_self _ _) hk]
    · rcases hbase with h | h
      · refine ih _ (Or.inl ?_) (fun c' hc' => hcons c' (List.mem_cons_of_mem _ hc'))
        rw [insertChunkVec, lookup_alInsert_ne _ _ _ _ (fun he => hk he.symm)]
        exact h
      · rcases List.mem_cons.mp h with rfl | hmem
        · exact absurd rfl hk
        · exact ih _ (Or.inr hmem) (fun c' hc' => hcons c' (List.mem_cons_of_mem _ hc'))

theorem processBatch_stable (f : String → List Rat) (tokOf : Nat → Nat)
    (m : Nat) (d : Rat) (mdl : String) (dim : Nat) (st : BatchState)
    (batch : List Chunk) :
    processBatch (stableClient f tokOf) m d mdl dim st batch =
      (batch.map (fun c => { c with embeddings := some (f c.content) }),
       { stats := { st.stats with
            embedded_chunks := st.stats.embedded_chunks + batch.length,
            total_tokens := st.stats.total_tokens +
              (batch.map fun c => calculateTokens c.content).sum,
            api_calls := st.stats.api_calls + 1 },
         cache := batch.foldl (insertChunkVec mdl dim f) st.cache,
         attempts := st.attempts + 1 }) := by
  have hz : batch.zip (List.map (f ∘ fun x => x.content) batch) =
      batch.map fun c => (c, f c.content) := by
    simpa using List.zip_map' id (fun c => f c.content) batch
  simp only [processBatch, callApiWithRetry]
  rw [retryLoop_first_success _ m 0 d ((batch.map (·.content)).map f)
      (tokOf (st.attempts + 0)) rfl]
  simp only [List.map_map, hz, List.length_map, List.drop_length,
    List.foldl_map, List.append_nil, Nat.add_zero]
  rfl

theorem processBatches_stable (f : String → List Rat) (tokOf : Nat → Nat)
    (m : Nat) (d : Rat) (mdl : String) (dim : Nat) :
    ∀ (batches : List (List Chunk)) (st : BatchState),
      processBatches (stableClient f tokOf) m d mdl dim batches st =
        (batches.flatten.map (fun c => { c with embeddings := some (f c.content) }),
         { stats := { st.stats with
              embedded_chunks := st.stats.embedded_chunks + batches.flatten.length,
              total_tokens := st.stats.total_tokens +
                (batches.flatten.map fun c => calculateTokens c.content).sum,
              api_calls := st.stats.api_calls + batches.length },
           cache := batches.flatten.foldl (insertChunkVec mdl dim f) st.cache,
           attempts := st.attempts + batches.length }) := by
  intro batches
  induction batches with
  | nil =>
    intro st
    simp [processBatches]
  | cons b bs ih =>
    intro st
    simp only [processBatches, processBatch_stable, ih, List.flatten_cons,
      List.map_append, List.length_append, List.length_cons, List.sum_append,
      List.foldl_append, List.length_map, List.map_map]
    refine Prod.ext rfl ?_
    simp only []
    congr 1
    · congr 1 <;> omega
    · omega

theorem processBatch_pattern (pat : Nat → Bool) (f : String → List Rat)
    (m : Nat) (d : Rat) (mdl : String) (dim : Nat) (st : BatchState)
    (b : List Chunk) :
    processBatch (patternClient pat f) m d mdl dim st b =
      if pat st.attempts then
        (b.map (fun c => { c with embeddings := some (f c.content) }),
         { stats := { st.stats with
              embedded_chunks := st.stats.embedded_chunks + b.length,
              total_tokens := st.stats.total_tokens +
                (b.map fun c => calculateTokens c.content).sum,
              api_calls := st.stats.api_calls + 1 },
           cache := b.foldl (insertChunkVec mdl dim f) st.cache,
           attempts := st.attempts + 1 })
      else
        (b, { stats := { st.stats with
                failed_chunks := st.stats.failed_chunks + b.length },
              cache := st.cache, attempts := st.attempts + 1 }) := by
  have hz : b.zip (List.map (f ∘ fun x => x.content) b) =
      b.map fun c => (c, f c.content) := by
    simpa using List.zip_map' id (fun c => f c.content) b
  by_cases hp : pat st.attempts
  · rw [if_pos hp]
    simp only [processBatch, callApiWithRetry]
    rw [retryLoop_first_success _ m 0 d ((b.map (·.content)).map f) 0
      (by simp [patternClient, hp])]
    simp only [List.map_map, hz, List.length_map, List.drop_length,
      List.foldl_map, List.append_nil, Nat.add_zero]
    rfl
  · rw [if_neg hp]
    simp only [processBatch, callApiWithRetry]
    rw [retryLoop_first_fatal _ m 0 d
      (by simp [patternClient, hp, ApiOutcome.fatal])]
    simp only [Nat.add_zero]

theorem processBatches_pattern (pat : Nat → Bool) (f : String → List Rat)
    (m : Nat) (d : Rat) (mdl : String) (dim : Nat) :
    ∀ (batches : List (List Chunk)) (st : BatchState),
      processBatches (patternClient pat f) m d mdl dim batches st =
        (patChunks pat f st.attempts batches,
         { stats := { st.stats with
              embedded_chunks :=
                st.stats.embedded_chunks + patCount pat true st.attempts batches,
              failed_chunks :=
                st.stats.failed_chunks + patCount pat false st.attempts batches,
              total_tokens := st.stats.total_tokens + patTokens pat st.attempts batches,
              api_calls := st.stats.api_calls + patCalls pat st.attempts batches },
           cache := patCache pat f mdl dim st.attempts batches st.cache,
           attempts := st.attempts + batches.length }) := by
  intro batches
  induction batches with
  | nil =>
    intro st
    simp [processBatches, patChunks, patCount, patTokens, patCalls, patCache]
  | cons b bs ih =>
    intro st
    have hstep := processBatch_pattern pat f m d mdl dim st b
    by_cases hp : pat st.attempts
    · rw [if_pos hp] at hstep
      simp only [processBatches, hstep, ih]
      simp only [patChunks, patCount, patTokens, patCalls, patCache, hp,
        if_true, List.length_cons]
      simp only [Nat.add_assoc]
      simp [Nat.add_comm 1 bs.length]
    · have hp' : pat st.attempts = false := by simpa using hp
      rw [hp', if_neg (by simp)] at hstep
      simp only [processBatches, hstep, ih]
      simp only [patChunks, patCount, patTokens, patCalls, patCache, hp',
        List.length_cons]
      norm_num
      simp only [Nat.add_assoc]
      simp [Nat.add_comm 1 bs.length]

theorem embedChunks_stable_eq (f : String → List Rat) (tokOf : Nat → Nat)
    (e : Embedder) (chunks : List Chunk) (hbs : 1 ≤ e.batch_size) :
    embedChunks (stableClient f tokOf) e chunks =
      (let flagged := chunks.map (chunkFate e)
       let pending := (flagged.filter (·.2)).map (·.1)
       let stats1 : EmbeddingStats := { e.stats with
         total_chunks := chunks.length,
         cached_chunks := e.stats.cached_chunks + (flagged.filter fun p => !p.2).length }
       if pending.isEmpty then
         { chunks := flagged.map (·.1),
           st := { e with stats := { stats1 with total_time := 0 } },
           attempts := 0, raised := false }
       else
         { chunks := chunks.map (fun c => match hitVal e c with
             | some v => { c with embeddings := some v }
             | none => { c with embeddings := some (f c.content) }),
           st := { e with
             cache := pending.foldl (insertChunkVec e.model e.dimension f) e.cache,
             stats := { stats1 with
               embedded_chunks := stats1.embedded_chunks + pending.length,
               total_tokens := stats1.total_tokens +
                 (pending.map fun c => calculateTokens c.content).sum,
               api_calls := stats1.api_calls + (chunkl e.batch_size.toNat pending).length,
               total_cost := ((stats1.total_tokens +
                 (pending.map fun c => calculateTokens c.content).sum : Nat) : Rat) *
                 PRICE_PER_TOKEN,
               total_time := 0 } },
           attempts := (chunkl e.batch_size.toNat pending).length, raised := false }) := by
  have hbn : 1 ≤ e.batch_size.toNat := by omega
  have hb0 : ¬ e.batch_size = 0 := by omega
  have hflat := chunkl_flatten e.batch_size.toNat hbn
    (((chunks.map (chunkFate e)).filter (·.2)).map (·.1))
  by_cases hpe : (((chunks.map (chunkFate e)).filter (·.2)).map (·.1)).isEmpty
  · simp only [embedChunks, hpe, if_true]
  · have hpe' : (((chunks.map (chunkFate e)).filter (·.2)).map (·.1)).isEmpty = false := by
      simpa using hpe
    simp only [embedChunks, hpe', Bool.false_eq_true, if_false, hb0, if_neg hb0,
      if_pos hbs, processBatches_stable, hflat]
    have hmerge := mergePending_map_filter
      (fun c => { c with embeddings := some (f c.content) }) (chunks.map (chunkFate e))
    simp only [hmerge]
    have hchunks : (chunks.map (chunkFate e)).map
        (fun p => if p.2 then { p.1 with embeddings := some (f p.1.content) } else p.1) =
        chunks.map (fun c => match hitVal e c with
          | some v => { c with embeddings := some v }
          | none => { c with embeddings := some (f c.content) }) := by
      rw [List.map_map]
      refine List.map_congr_left fun c _ => ?_
      rw [Function.comp_apply, chunkFate_eq_hitVal]
      cases hitVal e c <;> simp
    rw [hchunks]
    simp

theorem stableResult_embeddings (e : Embedder) (f : String → List Rat) (c : Chunk) :
    (stableResult e f c).embeddings = some (stableVec e f c) := by
  unfold stableResult stableVec
  cases hitVal e c <;> rfl

theorem cacheKey_stableResult (e : Embedder) (f : String → List Rat) (c : Chunk) :
    cacheKey (stableResult e f c) = cacheKey c := by
  unfold stableResult
  cases hitVal e c <;> rfl

theorem hitVal_key_congr (e : Embedder) (c1 c2 : Chunk)
    (h : cacheKey c1 = cacheKey c2) : hitVal e c1 = hitVal e c2 := by
  unfold hitVal getCachedEmbedding
  rw [h]

theorem embedChunks_stable_proj (f : String → List Rat) (tokOf : Nat → Nat)
    (e : Embedder) (chunks : List Chunk) (hbs : 1 ≤ e.batch_size) :
    (embedChunks (stableClient f tokOf) e chunks).chunks =
      chunks.map (stableResult e f) ∧
    (embedChunks (stableClient f tokOf) e chunks).st.cache =
      (((chunks.map (chunkFate e)).filter (·.2)).map (·.1)).foldl
        (insertChunkVec e.model e.dimension f) e.cache ∧
    (embedChunks (stableClient f tokOf) e chunks).st.model = e.model ∧
    (embedChunks (stableClient f tokOf) e chunks).st.batch_size = e.batch_size ∧
    (embedChunks (stableClient f tokOf) e chunks).st.dimension = e.dimension ∧
    (embedChunks (stableClient f tokOf) e chunks).raised = false := by
  rw [embedChunks_stable_eq f tokOf e chunks hbs]
  by_cases hpe : (((chunks.map (chunkFate e)).filter (·.2)).map (·.1)).isEmpty
  · have hnil : (chunks.map (chunkFate e)).filter (·.2) = [] := by
      rw [List.isEmpty_iff] at hpe
      exact List.map_eq_nil_iff.mp hpe
    have hall := List.filter_eq_nil_iff.mp hnil
    simp only [hpe, if_true]
    refine ⟨?_, ?_, trivial, trivial, trivial, trivial⟩
    · rw [List.map_map]
      refine List.map_congr_left fun c hc => ?_
      have hfate := hall (chunkFate e c) (List.mem_map_of_mem _ hc)
      simp only [Function.comp_apply]
      rw [chunkFate_eq_hitVal] at hfate
      rw [chunkFate_eq_hitVal]
      unfold stableResult
      cases hv : hitVal e c
      · rw [hv] at hfate
        simp at hfate
      · simp [hv]
    · rw [hnil]
      simp
  · have hpe' : (((chunks.map (chunkFate e)).filter (·.2)).map (·.1)).isEmpty = false := by
      simpa using hpe
    simp only [hpe', Bool.false_eq_true, if_false]
    refine ⟨?_, ?_, ?_, ?_, ?_, ?_⟩ <;> trivial

theorem mem_pending_iff (e : Embedder) (chunks : List Chunk) (c' : Chunk) :
    c' ∈ ((chunks.map (chunkFate e)).filter (·.2)).map (·.1) ↔
      c' ∈ chunks ∧ hitVal e c' = none := by
  constructor
  · intro h
    rcases List.mem_map.mp h with ⟨p, hp, rfl⟩
    rcases List.mem_filter.mp hp with ⟨hmem, hflag⟩
    rcases List.mem_map.mp hmem with ⟨c0, hc0, rfl⟩
    rw [chunkFate_eq_hitVal] at hflag ⊢
    cases hv : hitVal e c0 with
    | none =>
      simp only [hv]
      exact ⟨hc0, trivial⟩
    | some v =>
      rw [hv] at hflag
      simp at hflag
  · rintro ⟨hc, hnone⟩
    refine List.mem_map.mpr ⟨(c', true), List.mem_filter.mpr ⟨?_, rfl⟩, rfl⟩
    refine List.mem_map.mpr ⟨c', hc, ?_⟩
    rw [chunkFate_eq_hitVal, hnone]

theorem embed_cache_idempotent_aux (f : String → List Rat) (tokOf : Nat → Nat)
    (e : Embedder) (chunks : List Chunk) (hbs : 1 ≤ e.batch_size)
    (hf : ∀ t, f t ≠ [])
    (hinj : ∀ c1 ∈ chunks, ∀ c2 ∈ chunks, cacheKey c1 = cacheKey c2 →
      c1.content = c2.content ∧ c1.metadata = c2.metadata) :
    ∀ c ∈ chunks,
      hitVal (embedChunks (stableClient f tokOf) e chunks).st (stableResult e f c) =
        some (stableVec e f c) := by
  obtain ⟨hchunks1, hcache1, hmodel1, hbs1, hdim1, hraised1⟩ :=
    embedChunks_stable_proj f tokOf e chunks hbs
  intro c hc
  have hkey : cacheKey (stableResult e f c) = cacheKey c := cacheKey_stableResult e f c
  cases hv : hitVal e c with
  | some v =>
    have hnotmem : ∀ c' ∈ ((chunks.map (chunkFate e)).filter (·.2)).map (·.1),
        cacheKey c' ≠ cacheKey c := by
      intro c' hc' heq
      have hnone := (mem_pending_iff e chunks c').mp hc'
      have hcon := hitVal_key_congr e c' c heq
      rw [hnone.2, hv] at hcon
      cases hcon
    have hlook : (embedChunks (stableClient f tokOf) e chunks).st.cache.lookup
        (cacheKey c) = e.cache.lookup (cacheKey c) := by
      rw [hcache1]
      exact lookup_foldl_insertChunkVec_not_mem e.model e.dimension f (cacheKey c)
        _ e.cache hnotmem
    have hvec : stableVec e f c = v := by unfold stableVec; rw [hv]
    rw [hvec]
    unfold hitVal getCachedEmbedding at hv ⊢
    rw [hkey, hlook, hmodel1]
    exact hv
  | none =>
    have hcmem : c ∈ ((chunks.map (chunkFate e)).filter (·.2)).map (·.1) :=
      (mem_pending_iff e chunks c).mpr ⟨hc, hv⟩
    have hcons : ∀ c' ∈ ((chunks.map (chunkFate e)).filter (·.2)).map (·.1),
        cacheKey c' = cacheKey c →
        mkCacheEntry e.model e.dimension c' (f c'.content) =
          mkCacheEntry e.model e.dimension c (f c.content) := by
      intro c' hc' heq
      have h1 := (mem_pending_iff e chunks c').mp hc'
      obtain ⟨hcont, hmeta⟩ := hinj c' h1.1 c hc heq
      unfold mkCacheEntry
      rw [hcont, hmeta]
    have hlook : (embedChunks (stableClient f tokOf) e chunks).st.cache.lookup
        (cacheKey c) = some (mkCacheEntry e.model e.dimension c (f c.content)) := by
      rw [hcache1]
      exact lookup_foldl_insertChunkVec_mem e.model e.dimension f c _ e.cache
        (Or.inr hcmem) hcons
    have hvec : stableVec e f c = f c.content := by unfold stableVec; rw [hv]
    rw [hvec]
    unfold hitVal getCachedEmbedding
    rw [hkey, hlook, hmodel1]
    have hne : (f c.content).isEmpty = false := by
      rw [Bool.eq_false_iff]
      simpa [List.isEmpty_iff] using hf c.content
    simp [mkCacheEntry, hne]

theorem filter_snd_map_false (g : Chunk → Chunk) : ∀ l : List Chunk,
    (l.map (fun c => (g c, false))).filter (fun p : Chunk × Bool => p.2) = [] := by
  intro l
  induction l with
  | nil => rfl
  | cons c t ih => simpa [List.filter] using ih

theorem filter_not_snd_map_false (g : Chunk → Chunk) : ∀ l : List Chunk,
    (l.map (fun c => (g c, false))).filter (fun p : Chunk × Bool => !p.2) =
      l.map (fun c => (g c, false)) := by
  intro l
  induction l with
  | nil => rfl
  | cons c t ih => simpa [List.filter] using ih

/-- C1: cache idempotence of `embed_chunks`.  With a stable client whose
vectors are non-empty, a positive batch size, and no md5 collisions
among the presented units, a second call on the result of a first fully
successful call issues zero remote attempts, satisfies every unit from
the cache (`cached_chunks` grows by the full list length), returns the
identical chunk list with identical vectors, leaves the cache unchanged,
and does not raise. -/
theorem embed_cache_idempotent_main (f : String → List Rat) (tokOf : Nat → Nat)
    (e : Embedder) (chunks : List Chunk) (hbs : 1 ≤ e.batch_size)
    (hf : ∀ t, f t ≠ [])
    (hinj : ∀ c1 ∈ chunks, ∀ c2 ∈ chunks, cacheKey c1 = cacheKey c2 →
      c1.content = c2.content ∧ c1.metadata = c2.metadata) :
    embedChunks (stableClient f tokOf) (embedChunks (stableClient f tokOf) e chunks).st
        (embedChunks (stableClient f tokOf) e chunks).chunks =
      { chunks := (embedChunks (stableClient f tokOf) e chunks).chunks,
        st := { (embedChunks (stableClient f tokOf) e chunks).st with
          stats := { (embedChunks (stableClient f tokOf) e chunks).st.stats with
            total_chunks := chunks.length,
            cached_chunks :=
              (embedChunks (stableClient f tokOf) e chunks).st.stats.cached_chunks +
                chunks.length,
            total_time := 0 } },
        attempts := 0, raised := false } := by
  obtain ⟨hchunks1, hcache1, hmodel1, hbs1, hdim1, hraised1⟩ :=
    embedChunks_stable_proj f tokOf e chunks hbs
  have hA := embed_cache_idempotent_aux f tokOf e chunks hbs hf hinj
  set E1 := (embedChunks (stableClient f tokOf) e chunks).st with hE1
  set L1 := (embedChunks (stableClient f tokOf) e chunks).chunks with hL1
  have hfate2 : ∀ c ∈ chunks,
      chunkFate E1 (stableResult e f c) = (stableResult e f c, false) := by
    intro c hc
    rw [chunkFate_eq_hitVal, hA c hc]
    have hemb := stableResult_embeddings e f c
    cases hsr : stableResult e f c with
    | mk cc mm ee =>
      rw [hsr] at hemb
      simp at hemb
      simp [hemb]
  have hflag2 : L1.map (chunkFate E1) = chunks.map (fun c => (stableResult e f c, false)) := by
    rw [hchunks1, List.map_map]
    refine List.map_congr_left fun c hc => ?_
    simp only [Function.comp_apply]
    exact hfate2 c hc
  have hpend2 : (((L1.map (chunkFate E1)).filter (·.2)).map (·.1)).isEmpty = true := by
    rw [hflag2, filter_snd_map_false]
    rfl
  have hlen1 : L1.length = chunks.length := by
    rw [hchunks1, List.length_map]
  simp only [embedChunks, hpend2, if_true]
  congr 1
  · rw [hflag2, List.map_map, hchunks1]
    exact List.map_congr_left fun c _ => rfl
  · congr 1
    rw [hflag2, filter_not_snd_map_false, List.length_map, hlen1]

theorem chunkFate_empty_cache (e : Embedder) (he : e.cache = []) (c : Chunk) :
    chunkFate e c = (c, true) := by
  rw [chunkFate_eq_hitVal]
  unfold hitVal getCachedEmbedding
  rw [he]
  rfl

theorem filter_snd_map_true : ∀ l : List Chunk,
    (l.map (fun c => (c, true))).filter (fun p : Chunk × Bool => p.2) =
      l.map (fun c => (c, true)) := by
  intro l
  induction l with
  | nil => rfl
  | cons c t ih => simp [List.filter, ih]

theorem filter_not_snd_map_true : ∀ l : List Chunk,
    (l.map (fun c => (c, true))).filter (fun p : Chunk × Bool => !p.2) = [] := by
  intro l
  induction l with
  | nil => rfl
  | cons c t ih => simpa [List.filter] using ih

theorem pending_empty_cache (e : Embedder) (he : e.cache = []) (chunks : List Chunk) :
    ((chunks.map (chunkFate e)).filter (·.2)).map (·.1) = chunks ∧
    (chunks.map (chunkFate e)).filter (fun p => !p.2) = [] := by
  have hmap : chunks.map (chunkFate e) = chunks.map (fun c => (c, true)) :=
    List.map_congr_left fun c _ => chunkFate_empty_cache e he c
  rw [hmap]
  constructor
  · rw [filter_snd_map_true, List.map_map]
    have hid : ((fun x : Chunk × Bool => x.1) ∘ fun c : Chunk => (c, true)) = id := rfl
    rw [hid, List.map_id]
  · exact filter_not_snd_map_true chunks

/-- C10: token and cost statistics are estimates independent of the API
usage report.  A run's entire result is unchanged when the API-reported
token count changes; for a run from fresh statistics with an empty cache
and a stable client, `total_tokens` is the sum of `len(text) // 4` over
the units, `total_cost` is that sum times `PRICE_PER_TOKEN` and equals
the pre-flight `estimate_cost`; and under an arbitrary per-batch outcome
pattern `total_tokens` sums `len(text) // 4` over exactly the newly
embedded units. -/
theorem token_cost_estimates_main (f : String → List Rat) (tokOf tokOf' : Nat → Nat)
    (pat : Nat → Bool) (e : Embedder) (chunks : List Chunk)
    (hbs : 1 ≤ e.batch_size) :
    embedChunks (stableClient f tokOf) e chunks =
      embedChunks (stableClient f tokOf') e chunks ∧
    (e.stats = {} → e.cache = [] →
      ((embedChunks (stableClient f tokOf) e chunks).st.stats.total_tokens =
        (chunks.map fun c => calculateTokens c.content).sum ∧
       (embedChunks (stableClient f tokOf) e chunks).st.stats.total_cost =
        (((chunks.map fun c => calculateTokens c.content).sum : Nat) : Rat) *
          PRICE_PER_TOKEN ∧
       (embedChunks (stableClient f tokOf) e chunks).st.stats.total_cost =
        estimateCost chunks) ∧
      ((embedChunks (patternClient pat f) e chunks).st.stats.total_tokens =
        patTokens pat 0 (chunkl e.batch_size.toNat chunks) ∧
       (embedChunks (patternClient pat f) e chunks).st.stats.total_cost =
        ((patTokens pat 0 (chunkl e.batch_size.toNat chunks) : Nat) : Rat) *
          PRICE_PER_TOKEN)) := by
  constructor
  · rw [embedChunks_stable_eq f tokOf e chunks hbs,
      embedChunks_stable_eq f tokOf' e chunks hbs]
  · intro hstats hcache
    obtain ⟨hpend, hmiss⟩ := pending_empty_cache e hcache chunks
    constructor
    · rw [embedChunks_stable_eq f tokOf e chunks hbs]
      cases chunks with
      | nil =>
        simp [estimateCost, hstats, PRICE_PER_TOKEN]
      | cons c0 rest =>
        have hne : ((((c0 :: rest).map (chunkFate e)).filter (·.2)).map (·.1)).isEmpty =
            false := by
          rw [hpend]
          rfl
        simp only [hne, Bool.false_eq_true, if_false, hpend, hstats, estimateCost,
          List.isEmpty_cons]
        simp
    · have hb0 : ¬ e.batch_size = 0 := by omega
      cases chunks with
      | nil =>
        simp [embedChunks, hstats, PRICE_PER_TOKEN, chunkl, chunklF, patTokens]
      | cons c0 rest =>
        have hne : ((((c0 :: rest).map (chunkFate e)).filter (·.2)).map (·.1)).isEmpty =
            false := by
          rw [hpend]
          rfl
        simp only [embedChunks, hne, Bool.false_eq_true, if_false, hb0, if_neg hb0,
          if_pos hbs, processBatches_pattern, hpend, hstats, List.isEmpty_cons]
        simp

theorem processBatches_count (cl : Nat → List String → ApiOutcome) (m : Nat)
    (d : Rat) (mdl : String) (dim : Nat)
    (hlen : ∀ i ts embs tok, cl i ts = .success embs tok → embs.length = ts.length) :
    ∀ (batches : List (List Chunk)) (st : BatchState),
      (processBatches cl m d mdl dim batches st).2.stats.embedded_chunks +
          (processBatches cl m d mdl dim batches st).2.stats.failed_chunks =
        st.stats.embedded_chunks + st.stats.failed_chunks +
          (batches.map List.length).sum ∧
      (processBatches cl m d mdl dim batches st).2.stats.total_chunks =
        st.stats.total_chunks ∧
      (processBatches cl m d mdl dim batches st).2.stats.cached_chunks =
        st.stats.cached_chunks := by
  intro batches
  induction batches with
  | nil =>
    intro st
    simp [processBatches]
  | cons b bs ih =>
    intro st
    cases hres : (callApiWithRetry
        (fun i => cl (st.attempts + i) (b.map (·.content))) m d).result with
    | some res =>
      rcases res with ⟨embs, tok⟩
      have hlb : embs.length = b.length := by
        rcases retryLoop_success_result _ m 0 d embs tok hres with ⟨i, hi⟩
        rw [hlen _ _ _ _ hi, List.length_map]
      have hzl : (b.zip embs).length = b.length := by
        rw [List.length_zip, hlb, Nat.min_self]
      simp only [processBatches, processBatch, hres]
      refine ⟨?_, ?_, ?_⟩ <;>
        simp only [(ih _).1, (ih _).2.1, (ih _).2.2, List.map_cons, List.sum_cons,
          hzl] <;>
        omega
    | none =>
      simp only [processBatches, processBatch, hres]
      refine ⟨?_, ?_, ?_⟩ <;>
        simp only [(ih _).1, (ih _).2.1, (ih _).2.2, List.map_cons, List.sum_cons] <;>
        omega

theorem embedChunks_eq_run (cl : Nat → List String → ApiOutcome) (e : Embedder)
    (chunks : List Chunk) (hbs : 1 ≤ e.batch_size)
    (hpe : (((chunks.map (chunkFate e)).filter (·.2)).map (·.1)).isEmpty = false) :
    embedChunks cl e chunks =
      { chunks := mergePending (chunks.map (chunkFate e))
          (processBatches cl e.max_retries e.retry_delay e.model e.dimension
            (chunkl e.batch_size.toNat
              (((chunks.map (chunkFate e)).filter (·.2)).map (·.1)))
            { stats := { e.stats with
                total_chunks := chunks.length,
                cached_chunks := e.stats.cached_chunks +
                  ((chunks.map (chunkFate e)).filter fun p => !p.2).length },
              cache := e.cache, attempts := 0 }).1,
        st := { e with
          cache := (processBatches cl e.max_retries e.retry_delay e.model e.dimension
            (chunkl e.batch_size.toNat
              (((chunks.map (chunkFate e)).filter (·.2)).map (·.1)))
            { stats := { e.stats with
                total_chunks := chunks.length,
                cached_chunks := e.stats.cached_chunks +
                  ((chunks.map (chunkFate e)).filter fun p => !p.2).length },
              cache := e.cache, attempts := 0 }).2.cache,
          stats := { (processBatches cl e.max_retries e.retry_delay e.model e.dimension
            (chunkl e.batch_size.toNat
              (((chunks.map (chunkFate e)).filter (·.2)).map (·.1)))
            { stats := { e.stats with
                total_chunks := chunks.length,
                cached_chunks := e.stats.cached_chunks +
                  ((chunks.map (chunkFate e)).filter fun p => !p.2).length },
              cache := e.cache, attempts := 0 }).2.stats with
            total_cost := (((processBatches cl e.max_retries e.retry_delay e.model
              e.dimension (chunkl e.batch_size.toNat
                (((chunks.map (chunkFate e)).filter (·.2)).map (·.1)))
              { stats := { e.stats with
                  total_chunks := chunks.length,
                  cached_chunks := e.stats.cached_chunks +
                    ((chunks.map (chunkFate e)).filter fun p => !p.2).length },
                cache := e.cache, attempts := 0 }).2.stats.total_tokens : Nat) : Rat) *
              PRICE_PER_TOKEN,
            total_time := 0 } },
        attempts := (processBatches cl e.max_retries e.retry_delay e.model e.dimension
            (chunkl e.batch_size.toNat
              (((chunks.map (chunkFate e)).filter (·.2)).map (·.1)))
            { stats := { e.stats with
                total_chunks := chunks.length,
                cached_chunks := e.stats.cached_chunks +
                  ((chunks.map (chunkFate e)).filter fun p => !p.2).length },
              cache := e.cache, attempts := 0 }).2.attempts,
        raised := false } := by
  have hb0 : ¬ e.batch_size = 0 := by omega
  simp only [embedChunks, hpe, Bool.false_eq_true, if_false, hb0, if_pos hbs]

/-- C3 amended: at the end of a run of `embed_chunks` that starts from
zeroed statistics (fresh engine or after `reset_stats`), with a positive
batch size and a client that returns one vector per input text,
`total_chunks = cached_chunks + embedded_chunks + failed_chunks`, and the
run completes without raising. -/
theorem stats_sum_invariant_amended (cl : Nat → List String → ApiOutcome)
    (e : Embedder) (chunks : List Chunk) (hstats : e.stats = {})
    (hbs : 1 ≤ e.batch_size)
    (hlen : ∀ i ts embs tok, cl i ts = .success embs tok → embs.length = ts.length) :
    (embedChunks cl e chunks).raised = false ∧
    (embedChunks cl e chunks).st.stats.total_chunks =
      (embedChunks cl e chunks).st.stats.cached_chunks +
        (embedChunks cl e chunks).st.stats.embedded_chunks +
        (embedChunks cl e chunks).st.stats.failed_chunks := by
  have hbn : 1 ≤ e.batch_size.toNat := by omega
  have hsplit := List.length_eq_length_filter_add (l := chunks.map (chunkFate e))
    (fun p => p.2)
  rw [List.length_map] at hsplit
  by_cases hpe : (((chunks.map (chunkFate e)).filter (·.2)).map (·.1)).isEmpty
  · have hnil : (chunks.map (chunkFate e)).filter (·.2) = [] := by
      rw [List.isEmpty_iff] at hpe
      exact List.map_eq_nil_iff.mp hpe
    simp only [embedChunks, hpe, if_true, hstats]
    refine ⟨trivial, ?_⟩
    rw [hnil] at hsplit
    simpa using hsplit
  · have hpe' : (((chunks.map (chunkFate e)).filter (·.2)).map (·.1)).isEmpty = false := by
      simpa using hpe
    have hflatlen : ((chunkl e.batch_size.toNat
        (((chunks.map (chunkFate e)).filter (·.2)).map (·.1))).map List.length).sum =
        ((chunks.map (chunkFate e)).filter (·.2)).length := by
      rw [← List.length_flatten, chunkl_flatten _ hbn, List.length_map]
    have hcnt := processBatches_count cl e.max_retries e.retry_delay e.model
      e.dimension hlen
      (chunkl e.batch_size.toNat (((chunks.map (chunkFate e)).filter (·.2)).map (·.1)))
      { stats := { e.stats with
          total_chunks := chunks.length,
          cached_chunks := e.stats.cached_chunks +
            ((chunks.map (chunkFate e)).filter fun p => !p.2).length },
        cache := e.cache, attempts := 0 }
    rw [embedChunks_eq_run cl e chunks hbs hpe']
    refine ⟨rfl, ?_⟩
    simp only [hstats] at hcnt ⊢
    simp at hcnt ⊢
    omega

theorem patChunks_length (pat : Nat → Bool) (f : String → List Rat) :
    ∀ (batches : List (List Chunk)) (j : Nat),
      (patChunks pat f j batches).length = (batches.map List.length).sum := by
  intro batches
  induction batches with
  | nil => intro j; rfl
  | cons b bs ih =>
    intro j
    simp only [patChunks, List.length_append, List.map_cons, List.sum_cons, ih]
    by_cases hp : pat j <;> simp [hp]

theorem mergePending_all_true : ∀ (l ps : List Chunk), ps.length = l.length →
    mergePending (l.map fun c => (c, true)) ps = ps := by
  intro l
  induction l with
  | nil =>
    intro ps hlen
    rw [List.length_nil, List.length_eq_zero] at hlen
    rw [hlen]
    rfl
  | cons c t ih =>
    intro ps hlen
    cases ps with
    | nil => simp at hlen
    | cons p pt =>
      simp only [List.map_cons, mergePending]
      rw [ih pt (by simpa using hlen)]

/-- C4: batch failure isolation.  For every input list and every
per-batch outcome pattern (batch `j` succeeds iff `pat j`), the run
completes, every batch is processed (`attempts` equals the number of
batches), units of failed batches keep their `None` vectors while units
of successful batches are embedded, and the embedded/failed statistics
count exactly the units of the successful/failed batches. -/
theorem batch_failure_isolation_main (pat : Nat → Bool) (f : String → List Rat)
    (e : Embedder) (chunks : List Chunk) (hbs : 1 ≤ e.batch_size)
    (hcache : e.cache = []) :
    (embedChunks (patternClient pat f) e chunks).raised = false ∧
    (embedChunks (patternClient pat f) e chunks).attempts =
      (chunkl e.batch_size.toNat chunks).length ∧
    (embedChunks (patternClient pat f) e chunks).chunks =
      patChunks pat f 0 (chunkl e.batch_size.toNat chunks) ∧
    (embedChunks (patternClient pat f) e chunks).st.stats.embedded_chunks =
      e.stats.embedded_chunks + patCount pat true 0 (chunkl e.batch_size.toNat chunks) ∧
    (embedChunks (patternClient pat f) e chunks).st.stats.failed_chunks =
      e.stats.failed_chunks + patCount pat false 0 (chunkl e.batch_size.toNat chunks) := by
  have hbn : 1 ≤ e.batch_size.toNat := by omega
  obtain ⟨hpend, hmiss⟩ := pending_empty_cache e hcache chunks
  cases chunks with
  | nil =>
    simp [embedChunks, chunkl, chunklF, patChunks, patCount]
  | cons c0 rest =>
    have hne : ((((c0 :: rest).map (chunkFate e)).filter (·.2)).map (·.1)).isEmpty =
        false := by
      rw [hpend]
      rfl
    have hmaptrue : (c0 :: rest).map (chunkFate e) =
        (c0 :: rest).map (fun c => (c, true)) :=
      List.map_congr_left fun c _ => chunkFate_empty_cache e hcache c
    have hplen : (patChunks pat f 0 (chunkl e.batch_size.toNat (c0 :: rest))).length =
        (c0 :: rest).length := by
      rw [patChunks_length, ← List.length_flatten, chunkl_flatten _ hbn]
    rw [embedChunks_eq_run (patternClient pat f) e (c0 :: rest) hbs hne]
    simp only [hpend, hmiss, processBatches_pattern]
    refine ⟨trivial, by simp, ?_, by simp, by simp⟩
    rw [hmaptrue, mergePending_all_true _ _ hplen]

/-- C6: model-change invalidation.  Cache lookup returns the stored
vector exactly when an entry exists for the unit's fingerprint and its
recorded model equals the currently configured model; and a unit whose
entry was cached under a different model is treated as a miss (not an
error): it is sent to the remote client (one attempt), freshly embedded,
re-cached under the current model, and not counted as cached. -/
theorem model_change_invalidation_parts :
    (∀ (e : Embedder) (c : Chunk) (v : List Rat),
      getCachedEmbedding e c = some v ↔
        ∃ en, e.cache.lookup (cacheKey c) = some en ∧ en.model = e.model ∧
          en.embedding = v) ∧
    (∀ (f : String → List Rat) (tokOf : Nat → Nat) (e : Embedder) (c : Chunk)
        (en : CacheEntry), e.cache.lookup (cacheKey c) = some en →
        en.model ≠ e.model → 1 ≤ e.batch_size →
      (embedChunks (stableClient f tokOf) e [c]).attempts = 1 ∧
      (embedChunks (stableClient f tokOf) e [c]).chunks =
        [{ c with embeddings := some (f c.content) }] ∧
      (embedChunks (stableClient f tokOf) e [c]).st.cache.lookup (cacheKey c) =
        some (mkCacheEntry e.model e.dimension c (f c.content)) ∧
      (embedChunks (stableClient f tokOf) e [c]).st.stats.cached_chunks =
        e.stats.cached_chunks) := by
  constructor
  · intro e c v
    unfold getCachedEmbedding
    cases hl : e.cache.lookup (cacheKey c) with
    | none =>
      simp
    | some en =>
      by_cases hm : en.model = e.model
      · simp only [hm, if_true, Option.some.injEq]
        constructor
        · rintro rfl
          exact ⟨en, rfl, hm, rfl⟩
        · rintro ⟨en', hen', hm', hv⟩
          rw [hen']
          exact hv
      · simp only [hm, if_false]
        constructor
        · intro h
          cases h
        · rintro ⟨en', hen', hm', hv⟩
          injection hen' with h1
          rw [← h1] at hm'
          exact absurd hm' hm
  · intro f tokOf e c en hl hm hbs
    have hhit : hitVal e c = none := by
      unfold hitVal getCachedEmbedding
      simp [hl, hm]
    have hfate : chunkFate e c = (c, true) := by
      rw [chunkFate_eq_hitVal, hhit]
    have hpend : (([c].map (chunkFate e)).filter (·.2)).map (·.1) = [c] := by
      simp [hfate]
    have hmiss : ([c].map (chunkFate e)).filter (fun p => !p.2) = [] := by
      simp [hfate]
    have hne : ((([c].map (chunkFate e)).filter (·.2)).map (·.1)).isEmpty = false := by
      rw [hpend]
      rfl
    have hone : chunkl e.batch_size.toNat [c] = [[c].take e.batch_size.toNat] := by
      have hb0 : ¬ e.batch_size.toNat = 0 := by omega
      have hdrop : [c].drop e.batch_size.toNat = ([] : List Chunk) :=
        List.drop_eq_nil_of_le (by simp; omega)
      simp only [chunkl_eq, hb0, if_false, hdrop]
    rw [embedChunks_stable_eq f tokOf e [c] hbs]
    simp only [hpend, hmiss, hone, List.isEmpty_cons, Bool.false_eq_true, if_false]
    refine ⟨rfl, ?_, ?_, by simp⟩
    · simp only [List.map_cons, List.map_nil, stableResult, hhit]
    · simp only [List.foldl_cons, List.foldl_nil, insertChunkVec]
      exact lookup_alInsert_self _ _ _

theorem md5Block_bounded (st : Md5State) (b : List Nat) :
    (md5Block st b).bounded := by
  refine ⟨?_, ?_, ?_, ?_⟩ <;> exact Nat.mod_lt _ (by norm_num)

theorem foldl_md5Block_bounded :
    ∀ (blocks : List (List Nat)) (st : Md5State), st.bounded →
      (blocks.foldl md5Block st).bounded := by
  intro blocks
  induction blocks with
  | nil => intro st h; exact h
  | cons b bs ih =>
    intro st _
    exact ih (md5Block st b) (md5Block_bounded st b)

theorem md5Init_bounded : md5Init.bounded := by
  refine ⟨?_, ?_, ?_, ?_⟩ <;> norm_num [md5Init]

theorem md5Num_lt (s : String) : md5Num s < 2 ^ 128 := by
  unfold md5Num
  dsimp only
  obtain ⟨h1, h2, h3, h4⟩ :=
    foldl_md5Block_bounded (md5Blocks (md5Pad (strBytes s))) md5Init md5Init_bounded
  have e32 : (2 : Nat) ^ 32 = 4294967296 := by norm_num
  have e64 : (2 : Nat) ^ 64 = 18446744073709551616 := by norm_num
  have e96 : (2 : Nat) ^ 96 = 79228162514264337593543950336 := by norm_num
  have e128 : (2 : Nat) ^ 128 = 340282366920938463463374607431768211456 := by norm_num
  rw [e32, e64, e96, e128] at *
  omega

theorem md5Hex_congr (s1 s2 : String) (h : md5Num s1 = md5Num s2) :
    md5Hex s1 = md5Hex s2 := by
  unfold md5Hex
  rw [h]

/-- C9 counterexample: the claimed two-sided characterization fails —
`_get_cache_key` pipes unboundedly many distinct `(text, metadata)`
pairs through md5 into a 128-bit digest space, so some two distinct
units share a fingerprint and the "only if" direction cannot hold. -/
theorem fingerprint_iff_cex :
    ¬ (∀ u1 u2 : Chunk, cacheKey u1 = cacheKey u2 ↔
        (u1.content, u1.metadata) = (u2.content, u2.metadata)) := by
  intro hclaim
  obtain ⟨n1, n2, hne, heq⟩ := Finite.exists_ne_map_eq_of_infinite
    (fun n : ℕ => (⟨md5Num ((probeChunk n).content ++ ":" ++
      jsonDumps (probeChunk n).metadata), md5Num_lt _⟩ : Fin (2 ^ 128)))
  have hnum : md5Num ((probeChunk n1).content ++ ":" ++ jsonDumps (probeChunk n1).metadata) =
      md5Num ((probeChunk n2).content ++ ":" ++ jsonDumps (probeChunk n2).metadata) := by
    simpa using congrArg Fin.val heq
  have hkey : cacheKey (probeChunk n1) = cacheKey (probeChunk n2) :=
    md5Hex_congr _ _ hnum
  have hpair := (hclaim (probeChunk n1) (probeChunk n2)).mp hkey
  have hcont : (probeChunk n1).content = (probeChunk n2).content :=
    congrArg Prod.fst hpair
  have hdata : List.replicate n1 'a' = List.replicate n2 'a' :=
    congrArg String.data hcont
  have : n1 = n2 := by
    have := congrArg List.length hdata
    simpa using this
  exact hne this

/-- Two permuted metadata dictionaries with distinct keys sort
identically, so `sort_keys=True` erases insertion order. -/
theorem insertionSort_eq_of_perm (l1 l2 : List (String × JsonVal))
    (hperm : l1.Perm l2) (hnodup : (l1.map Prod.fst).Nodup) :
    List.insertionSort metaKeyLE l1 = List.insertionSort metaKeyLE l2 := by
  haveI : IsAntisymm (String × JsonVal) (fun a b => a.1 < b.1) :=
    ⟨fun a b h1 h2 => absurd h2 (lt_asymm h1)⟩
  have hp1 := List.perm_insertionSort metaKeyLE l1
  have hp2 := List.perm_insertionSort metaKeyLE l2
  have hs1 := List.sorted_insertionSort metaKeyLE l1
  have hs2 := List.sorted_insertionSort metaKeyLE l2
  have hperm12 : (List.insertionSort metaKeyLE l1).Perm (List.insertionSort metaKeyLE l2) :=
    (hp1.trans hperm).trans hp2.symm
  have hnd1 : ((List.insertionSort metaKeyLE l1).map Prod.fst).Nodup :=
    ((hp1.map Prod.fst).nodup_iff).mpr hnodup
  have hnd2 : ((List.insertionSort metaKeyLE l2).map Prod.fst).Nodup := by
    refine ((hp2.map Prod.fst).nodup_iff).mpr ?_
    exact ((hperm.map Prod.fst).nodup_iff).mp hnodup
  have hstrict1 : (List.insertionSort metaKeyLE l1).Sorted fun a b => a.1 < b.1 := by
    have hne := List.pairwise_map.mp hnd1
    exact (hs1.and hne).imp fun h => lt_of_le_of_ne h.1 h.2
  have hstrict2 : (List.insertionSort metaKeyLE l2).Sorted fun a b => a.1 < b.1 := by
    have hne := List.pairwise_map.mp hnd2
    exact (hs2.and hne).imp fun h => lt_of_le_of_ne h.1 h.2
  exact List.eq_of_perm_of_sorted hperm12 hstrict1 hstrict2

/-- C9 amended: fingerprint determinism.  Units with equal text and
equal metadata dictionaries (same key-value pairs in any insertion
order, keys distinct) receive equal fingerprints; the converse
(injectivity) fails by `fingerprint_iff_cex`. -/
theorem fingerprint_determinism_main (u1 u2 : Chunk)
    (hcont : u1.content = u2.content) (hperm : u1.metadata.Perm u2.metadata)
    (hnodup : (u1.metadata.map Prod.fst).Nodup) :
    cacheKey u1 = cacheKey u2 := by
  unfold cacheKey jsonDumps
  rw [hcont, insertionSort_eq_of_perm u1.metadata u2.metadata hperm hnodup]

/-- C3 counterexample: two consecutive runs over the same one-chunk list
with an always-failing client leave `total_chunks = 1` but
`cached + embedded + failed = 2`, because the failure counter
accumulates across runs while `total_chunks` is overwritten. -/
theorem stats_sum_invariant_cex :
    (embedChunks alwaysApiErrorClient
        (embedChunks alwaysApiErrorClient engineB1 [chunkX]).st
        (embedChunks alwaysApiErrorClient engineB1 [chunkX]).chunks).st.stats.total_chunks = 1 ∧
    (embedChunks alwaysApiErrorClient
        (embedChunks alwaysApiErrorClient engineB1 [chunkX]).st
        (embedChunks alwaysApiErrorClient engineB1 [chunkX]).chunks).st.stats.cached_chunks = 0 ∧
    (embedChunks alwaysApiErrorClient
        (embedChunks alwaysApiErrorClient engineB1 [chunkX]).st
        (embedChunks alwaysApiErrorClient engineB1 [chunkX]).chunks).st.stats.embedded_chunks = 0 ∧
    (embedChunks alwaysApiErrorClient
        (embedChunks alwaysApiErrorClient engineB1 [chunkX]).st
        (embedChunks alwaysApiErrorClient engineB1 [chunkX]).chunks).st.stats.failed_chunks = 2 ∧
    ¬ ((embedChunks alwaysApiErrorClient
        (embedChunks alwaysApiErrorClient engineB1 [chunkX]).st
        (embedChunks alwaysApiErrorClient engineB1 [chunkX]).chunks).st.stats.total_chunks =
      (embedChunks alwaysApiErrorClient
        (embedChunks alwaysApiErrorClient engineB1 [chunkX]).st
        (embedChunks alwaysApiErrorClient engineB1 [chunkX]).chunks).st.stats.cached_chunks +
      (embedChunks alwaysApiErrorClient
        (embedChunks alwaysApiErrorClient engineB1 [chunkX]).st
        (embedChunks alwaysApiErrorClient engineB1 [chunkX]).chunks).st.stats.embedded_chunks +
      (embedChunks alwaysApiErrorClient
        (embedChunks alwaysApiErrorClient engineB1 [chunkX]).st
        (embedChunks alwaysApiErrorClient engineB1 [chunkX]).chunks).st.stats.failed_chunks) := by
  decide

/-- C3 witness: the amended invariant at a concrete failing run. -/
theorem stats_sum_invariant_witness :
    (embedChunks alwaysApiErrorClient engineB1 [chunkX]).st.stats.total_chunks =
      (embedChunks alwaysApiErrorClient engineB1 [chunkX]).st.stats.cached_chunks +
        (embedChunks alwaysApiErrorClient engineB1 [chunkX]).st.stats.embedded_chunks +
        (embedChunks alwaysApiErrorClient engineB1 [chunkX]).st.stats.failed_chunks :=
  (stats_sum_invariant_amended alwaysApiErrorClient engineB1 [chunkX] rfl (by decide)
    (fun i ts embs tok h => by simp [alwaysApiErrorClient] at h)).2

/-- C1 witness: the idempotence equation at a concrete engine and
chunk. -/
theorem embed_cache_idempotent_witness :
    embedChunks (stableClient mockVec fun _ => 0)
        (embedChunks (stableClient mockVec fun _ => 0) engineA [chunkA]).st
        (embedChunks (stableClient mockVec fun _ => 0) engineA [chunkA]).chunks =
      { chunks := (embedChunks (stableClient mockVec fun _ => 0) engineA [chunkA]).chunks,
        st := { (embedChunks (stableClient mockVec fun _ => 0) engineA [chunkA]).st with
          stats := { (embedChunks (stableClient mockVec fun _ => 0) engineA
              [chunkA]).st.stats with
            total_chunks := 1,
            cached_chunks := (embedChunks (stableClient mockVec fun _ => 0) engineA
              [chunkA]).st.stats.cached_chunks + 1,
            total_time := 0 } },
        attempts := 0, raised := false } :=
  embed_cache_idempotent_main mockVec (fun _ => 0) engineA [chunkA] (by decide)
    (fun t => by simp [mockVec])
    (by
      intro c1 h1 c2 h2 _
      simp only [List.mem_singleton] at h1 h2
      rw [h1, h2]
      exact ⟨rfl, rfl⟩)

/-- C4 witness: 5 units in batches of 2 where the second batch always
fails: 3 remote calls, `embedded = 3` (batches 1 and 3), `failed = 2`
(batch 2), and the run is not aborted. -/
theorem batch_failure_isolation_witness :
    (embedChunks (patternClient patSecondFails mockVec) engine4 chunks5).attempts = 3 ∧
    (embedChunks (patternClient patSecondFails mockVec) engine4
      chunks5).st.stats.embedded_chunks = 3 ∧
    (embedChunks (patternClient patSecondFails mockVec) engine4
      chunks5).st.stats.failed_chunks = 2 ∧
    (embedChunks (patternClient patSecondFails mockVec) engine4 chunks5).raised = false :=
  have h := batch_failure_isolation_main patSecondFails mockVec engine4 chunks5
    (by decide) rfl
  ⟨h.2.1.trans (by decide), (h.2.2.2.1).trans (by decide),
    (h.2.2.2.2).trans (by decide), h.1⟩

/-- C5 witness: concrete instances of each amended conjunct. -/
theorem config_error_behavior_witness :
    mkEmbedder none none "m" 10 3 1 2 [] =
      .error "OpenAI API key not provided. Set OPENAI_API_KEY environment variable or pass api_key parameter." ∧
    mkEmbedder (some "sk-test") none "m" (-7) 3 1 2 [] =
      .ok { model := "m", batch_size := -7, max_retries := 3, retry_delay := 1,
            dimension := 2, cache := [], stats := {} } ∧
    (embedChunks mockClient engineZeroBS [chunkY]).raised = true ∧
    (embedChunks mockClient engineNegBS [chunkY]).raised = false :=
  ⟨(config_error_behavior.1 "m" 10 3 1 2 []).1,
   config_error_behavior.2.1 "sk-test" "m" (-7) 3 1 2 [] (by decide),
   (config_error_behavior.2.2.1 mockClient engineZeroBS [chunkY] rfl (by decide)).1,
   (config_error_behavior.2.2.2 mockClient engineNegBS [chunkY] (by decide)).1⟩

/-- C6 witness: an entry cached under `old-model` is ignored by an
engine configured with model `m`, forcing one fresh remote call. -/
theorem model_change_invalidation_witness :
    (embedChunks (stableClient mockVec fun _ => 0) engineMism [chunkOld]).attempts = 1 ∧
    (embedChunks (stableClient mockVec fun _ => 0) engineMism [chunkOld]).chunks =
      [{ chunkOld with embeddings := some (mockVec chunkOld.content) }] ∧
    (embedChunks (stableClient mockVec fun _ => 0) engineMism
        [chunkOld]).st.stats.cached_chunks = 0 :=
  have h := model_change_invalidation_parts.2 mockVec (fun _ => 0) engineMism chunkOld
    entryOld (by simp [engineMism, List.lookup]) (by decide) (by decide)
  ⟨h.1, h.2.1, h.2.2.2⟩

/-- C9 witness: two insertion orders of the same metadata give the same
fingerprint. -/
theorem fingerprint_determinism_witness :
    cacheKey chunkMeta1 = cacheKey chunkMeta2 :=
  fingerprint_determinism_main chunkMeta1 chunkMeta2 rfl
    (List.Perm.swap _ _ _) (by decide)

/-- C10 witness: two different token-usage reports give identical runs,
and the post-run cost equals the pre-flight estimate. -/
theorem token_cost_estimates_witness :
    embedChunks (stableClient mockVec fun _ => 5) engineB1 [chunkX] =
      embedChunks (stableClient mockVec fun _ => 99) engineB1 [chunkX] ∧
    (embedChunks (stableClient mockVec fun _ => 5) engineB1
        [chunkX]).st.stats.total_cost = estimateCost [chunkX] :=
  have h := token_cost_estimates_main mockVec (fun _ => 5) (fun _ => 99)
    patSecondFails engineB1 [chunkX] (by decide)
  ⟨h.1, ((h.2 rfl rfl).1).2.2⟩
